import Mathlib

/-!
# librdf: the Rasqal triples-source adapter, the GDBM hash and rdf-tree

A shallow embedding of the functions of `librdf/rdf_query_rasqal.c` that match
triple patterns against a model and bind query variables, of
`librdf_hash_gdbm_put` (`librdf/rdf_hash_gdbm.c`) and of `tree`
(`utils/rdf-tree.c`), followed by the theorems settled about them.

Conventions of the embedding

* a C pointer that may be `NULL` is an `Option`;
* a `rasqal_variable*` is an identity (an address), here a `Nat`; the values
  the variables hold live in an explicit state that is passed through;
* a call of `abort()` is the error side of `Except`;
* library functions whose bodies are outside this file's sources
  (`librdf_node_equals`, `librdf_model_find_statements`, `gdbm_store`, the
  accessors of a node pointer) are parameters;
* the recursion of `tree` is bounded by a fuel argument, `none` being the result
  when it runs out.
-/

namespace Librdf

/-! ## Data model -/

/-- Modelled from the spec: the declaration of `librdf_uri` is not among the
sources; a URI is observed through its text only. -/
abbrev librdf_uri := String

/-- Modelled from the spec: the declaration of `librdf_node` (rdf_node.h) is not
among the sources. Spec section 3: a node is a tagged union
`Resource{uri}`, `Literal{lexicalValue, languageTag?, datatypeUri?}`, `Blank{id}`. -/
inductive librdf_node where
  | resource (uri : librdf_uri)
  | literal (value : String) (language : Option String) (datatype : Option librdf_uri)
  | blank (identifier : String)
  deriving DecidableEq, Repr

/-- A statement held by a model and delivered by a stream: its three node
pointers are all present (spec section 3, `ConcreteTriple`). -/
structure librdf_statement where
  subject : librdf_node
  predicate : librdf_node
  object : librdf_node
  deriving DecidableEq, Repr

/-- A statement as built by `librdf_new_statement_from_nodes` for a query: a
`NULL` node pointer is the wildcard. -/
structure librdf_query_statement where
  subject : Option librdf_node
  predicate : Option librdf_node
  object : Option librdf_node
  deriving DecidableEq, Repr

/-- The node of a statement at position 0 (subject), 1 (predicate), 2 (object). -/
def librdf_statement.part (st : librdf_statement) (i : Fin 3) : librdf_node :=
  match i with
  | 0 => st.subject
  | 1 => st.predicate
  | 2 => st.object

/-- The node pointer of a query statement at position 0, 1, 2. -/
def librdf_query_statement.part (st : librdf_query_statement) (i : Fin 3) :
    Option librdf_node :=
  match i with
  | 0 => st.subject
  | 1 => st.predicate
  | 2 => st.object

/-- Modelled from the spec: the declaration of `librdf_stream` (rdf_stream.h) is
not among the sources. Spec section 6: a lazy, forward-only sequence of
candidate statements; here the candidates not yet consumed, current one first. -/
structure librdf_stream where
  items : List librdf_statement
  deriving DecidableEq, Repr

/-- Modelled from the spec: `librdf_stream_get_object`, the current candidate, or
`NULL` when there is none. -/
def librdf_stream_get_object (s : librdf_stream) : Option librdf_statement :=
  s.items.head?

/-- Modelled from the spec: `librdf_stream_next`, move to the next candidate. -/
def librdf_stream_next (s : librdf_stream) : librdf_stream :=
  ⟨s.items.tail⟩

/-- Modelled from the spec: `librdf_stream_end`, non-zero when no candidate remains. -/
def librdf_stream_end (s : librdf_stream) : Bool :=
  s.items.isEmpty

/-- Modelled from the spec: the `rasqal_literal_type` enumeration (rasqal.h) is
not among the sources; the six kinds the code names, and `OTHER n` for every
remaining enumerator except the variable kind. -/
inductive rasqal_literal_type where
  | URI | STRING | INTEGER | FLOATING | BOOLEAN | BLANK | VARIABLE
  | OTHER (n : Nat)
  deriving DecidableEq, Repr

/-- The identity of a `rasqal_variable` (its address). -/
abbrev rasqal_variable := Nat

/-- Modelled from the spec: the declaration of `rasqal_literal` (rasqal.h) is not
among the sources; the fields the code reads: `type`, `string`, `language`,
`datatype`, `value.uri` and `value.variable`. -/
structure rasqal_literal where
  type : rasqal_literal_type
  string : Option String
  language : Option String
  datatype : Option librdf_uri
  value_uri : Option librdf_uri
  value_variable : Option rasqal_variable
  deriving DecidableEq, Repr

/-- Modelled from the spec: `rasqal_new_uri_literal`. -/
def rasqal_new_uri_literal (uri : librdf_uri) : rasqal_literal :=
  { type := .URI, string := none, language := none, datatype := none,
    value_uri := some uri, value_variable := none }

/-- Modelled from the spec: `rasqal_new_string_literal`. -/
def rasqal_new_string_literal (string : String) (language : Option String)
    (datatype : Option librdf_uri) : rasqal_literal :=
  { type := .STRING, string := some string, language := language, datatype := datatype,
    value_uri := none, value_variable := none }

/-- Modelled from the spec: `rasqal_new_simple_literal`. -/
def rasqal_new_simple_literal (type : rasqal_literal_type) (string : String) :
    rasqal_literal :=
  { type := type, string := some string, language := none, datatype := none,
    value_uri := none, value_variable := none }

/-- Modelled from the spec: `rasqal_literal_as_variable`, the variable of a
variable literal, `NULL` for every other literal. -/
def rasqal_literal_as_variable (l : rasqal_literal) : Option rasqal_variable :=
  if l.type = .VARIABLE then l.value_variable else none

/-- The values held by the query variables, with the sequence of
`rasqal_variable_set_value` calls made so far (oldest first). -/
structure rasqal_variables where
  value : rasqal_variable → Option rasqal_literal
  assigned : List (rasqal_variable × rasqal_literal)

/-- Modelled from the spec: `rasqal_variable_set_value`, the variable takes the
literal as its value. -/
def rasqal_variable_set_value (σ : rasqal_variables) (v : rasqal_variable)
    (l : rasqal_literal) : rasqal_variables :=
  { value := fun u => if u = v then some l else σ.value u,
    assigned := σ.assigned ++ [(v, l)] }

/-! ## Node conversion -/

/-- What ends the process instead of returning. -/
inductive Fault where
  | abort
  deriving DecidableEq, Repr

/-- Source: `rasqal_literal_to_redland_node`; the last branch is the call of
`abort()`. The node constructors of librdf are not among the sources; they are
modelled from the spec's node kinds, and give a `NULL` node when the field they
are built from is `NULL`. -/
def rasqal_literal_to_redland_node (l : Option rasqal_literal) :
    Except Fault (Option librdf_node) :=
  match l with
  | none => .ok none
  | some l =>
    if l.type = .URI then
      .ok (l.value_uri.map librdf_node.resource)
    else if l.type = .STRING ∨ l.type = .INTEGER ∨ l.type = .FLOATING ∨ l.type = .BOOLEAN then
      .ok (l.string.map fun s => librdf_node.literal s l.language l.datatype)
    else if l.type = .BLANK then
      .ok (l.string.map librdf_node.blank)
    else
      .error .abort

/-- Source: `redland_node_to_rasqal_literal`, on a node pointer that is not `NULL`.
The three branches are those of `librdf_node_is_resource`, `librdf_node_is_literal`
and the remaining (blank) kind. -/
def redland_node_to_rasqal_literal (node : librdf_node) : rasqal_literal :=
  match node with
  | .resource uri => rasqal_new_uri_literal uri
  | .literal string language datatype => rasqal_new_string_literal string language datatype
  | .blank blank => rasqal_new_simple_literal .BLANK blank

/-! ## The match context -/

/-- Source: `rasqal_redland_triples_match_context`. -/
structure rasqal_redland_triples_match_context where
  nodes : Fin 3 → Option librdf_node
  qstatement : Option librdf_query_statement
  stream : Option librdf_stream

/-- The current statement of the context's stream: `librdf_stream_get_object(rtmc->stream)`,
`NULL` for a `NULL` stream. -/
def rasqal_redland_triples_match_context.current
    (rtmc : rasqal_redland_triples_match_context) : Option librdf_statement :=
  rtmc.stream.bind librdf_stream_get_object

/-- Source: `rasqal_redland_bind_match`. `librdf_node_equals` is the node
equality of librdf, `bindings` the three binding slots (`NULL` for a constant
slot) and `σ` the variables before the call; the result is the return code and
the variables after the call. -/
def rasqal_redland_bind_match (librdf_node_equals : librdf_node → librdf_node → Bool)
    (rtmc : rasqal_redland_triples_match_context)
    (bindings : Fin 3 → Option rasqal_variable) (σ : rasqal_variables) :
    Int × rasqal_variables :=
  match rtmc.current with
  | none => (1, σ)
  | some statement =>
    -- if(bindings[0]) rasqal_variable_set_value(bindings[0], subject)
    let σ0 :=
      match bindings 0 with
      | some v => rasqal_variable_set_value σ v (redland_node_to_rasqal_literal statement.subject)
      | none => σ
    -- if(bindings[1]): compare with the subject when bindings[0] == bindings[1]
    -- (`none` stands for `return 1`), bind the predicate otherwise
    let r1 : Option rasqal_variables :=
      match bindings 1 with
      | some v =>
        if bindings 0 = bindings 1 then
          if !librdf_node_equals statement.subject statement.predicate then none
          else some σ0
        else
          some (rasqal_variable_set_value σ0 v
            (redland_node_to_rasqal_literal statement.predicate))
      | none => some σ0
    match r1 with
    | none => (1, σ0)
    | some σ1 =>
      -- if(bindings[2])
      match bindings 2 with
      | none => (0, σ1)
      | some v =>
        -- int bind=1;
        let bind := true
        -- if(bindings[0] == bindings[2]) { if(!equals(subject, object)) return 1; bind=0; }
        if bindings 0 = bindings 2 ∧
            !librdf_node_equals statement.subject statement.object then (1, σ1)
        else
          let bind := if bindings 0 = bindings 2 then false else bind
          -- if(bindings[1] == bindings[2] && !(bindings[0] == bindings[1]))
          --   { if(!equals(predicate, object)) return 1; bind=0; }
          if (bindings 1 = bindings 2 ∧ ¬ bindings 0 = bindings 1) ∧
              !librdf_node_equals statement.predicate statement.object then (1, σ1)
          else
            let bind :=
              if bindings 1 = bindings 2 ∧ ¬ bindings 0 = bindings 1 then false else bind
            -- if(bind) rasqal_variable_set_value(bindings[2], object)
            if bind then
              (0, rasqal_variable_set_value σ1 v
                (redland_node_to_rasqal_literal statement.object))
            else (0, σ1)

/-- Source: `rasqal_redland_next_match`; `librdf_stream_next` leaves a `NULL`
stream alone. -/
def rasqal_redland_next_match (rtmc : rasqal_redland_triples_match_context) :
    rasqal_redland_triples_match_context :=
  { rtmc with stream := rtmc.stream.map librdf_stream_next }

/-- Source: `rasqal_redland_is_end`; `librdf_stream_end` is non-zero for a `NULL`
stream. -/
def rasqal_redland_is_end (rtmc : rasqal_redland_triples_match_context) : Bool :=
  match rtmc.stream with
  | none => true
  | some s => librdf_stream_end s

/-- The protocol of the calling query engine (spec section 2): while `is_end` is
false, call `bind_match` on the current candidate, then `next_match`. The result
lists, per candidate visited, the return code of `bind_match` and the variables
after it. `fuel` bounds the number of iterations. -/
def match_loop (librdf_node_equals : librdf_node → librdf_node → Bool)
    (bindings : Fin 3 → Option rasqal_variable) :
    Nat → rasqal_redland_triples_match_context → rasqal_variables →
      List (Int × rasqal_variables)
  | 0, _, _ => []
  | fuel + 1, rtmc, σ =>
    if rasqal_redland_is_end rtmc then []
    else
      let r := rasqal_redland_bind_match librdf_node_equals rtmc bindings σ
      r :: match_loop librdf_node_equals bindings fuel (rasqal_redland_next_match rtmc) r.2

/-! ## The triples source -/

/-- Source: `rasqal_triple`, the three literals of a triple pattern. -/
structure rasqal_triple where
  subject : rasqal_literal
  predicate : rasqal_literal
  object : rasqal_literal
  deriving DecidableEq, Repr

/-- The literal of a triple pattern at position 0, 1, 2. -/
def rasqal_triple.part (t : rasqal_triple) (i : Fin 3) : rasqal_literal :=
  match i with
  | 0 => t.subject
  | 1 => t.predicate
  | 2 => t.object

/-- Source: `rasqal_triple_meta`, of which the code writes `bindings[3]`. -/
structure rasqal_triple_meta where
  bindings : Fin 3 → Option rasqal_variable

/-- Modelled from the spec: `librdf_model` (rdf_model.h) is not among the
sources; a model is observed through `librdf_model_find_statements` and
`librdf_model_contains_statement` (spec section 6, `GraphStore`), the latter on
a statement pointer that may be `NULL`. -/
structure librdf_model where
  find_statements : librdf_query_statement → Option librdf_stream
  contains_statement : Option librdf_query_statement → Int

/-- Modelled from the spec: `librdf_world`, of which the code only needs whether
the allocation of a statement fails (spec section 7, `OutOfMemory`). -/
structure librdf_world where
  out_of_memory : Bool

/-- Modelled from the spec: `librdf_new_statement_from_nodes`, the statement of
the three node pointers, `NULL` when the allocation fails. -/
def librdf_new_statement_from_nodes (world : librdf_world)
    (subject predicate object : Option librdf_node) : Option librdf_query_statement :=
  if world.out_of_memory then none else some ⟨subject, predicate, object⟩

/-- Source: `rasqal_redland_triples_source_user_data` (the `query` field is not
read by the functions embedded here). -/
structure rasqal_redland_triples_source_user_data where
  world : librdf_world
  model : librdf_model

/-- Replace entry `i` of a three-element array. -/
def array3_set {α : Type} (a : Fin 3 → α) (i : Fin 3) (x : α) : Fin 3 → α :=
  fun j => if j = i then x else a j

/-- Source: `rasqal_redland_new_triples_match`. `σ` holds the values of the
variables at the time of the call (`var->value`), `m` is the caller's
`rasqal_triple_meta`; the result is `m` after the call with the returned match
(its `user_data`), `NULL` when the query statement could not be built. -/
def rasqal_redland_new_triples_match (rtsc : rasqal_redland_triples_source_user_data)
    (σ : rasqal_variables) (m : rasqal_triple_meta) (t : rasqal_triple) :
    Except Fault (rasqal_triple_meta × Option rasqal_redland_triples_match_context) := do
  let nodes : Fin 3 → Option librdf_node := fun _ => none
  -- subject
  let var := rasqal_literal_as_variable t.subject
  let n0 ←
    match var with
    | some v =>
      match σ.value v with
      | some value => rasqal_literal_to_redland_node (some value)
      | none => pure none
    | none => rasqal_literal_to_redland_node (some t.subject)
  let nodes := array3_set nodes 0 n0
  let m : rasqal_triple_meta := ⟨array3_set m.bindings 0 var⟩
  -- predicate
  let var := rasqal_literal_as_variable t.predicate
  let n1 ←
    match var with
    | some v =>
      match σ.value v with
      | some value => rasqal_literal_to_redland_node (some value)
      | none => pure none
    | none => rasqal_literal_to_redland_node (some t.predicate)
  let nodes := array3_set nodes 1 n1
  let m : rasqal_triple_meta := ⟨array3_set m.bindings 1 var⟩
  -- object
  let var := rasqal_literal_as_variable t.object
  let n2 ←
    match var with
    | some v =>
      match σ.value v with
      | some value => rasqal_literal_to_redland_node (some value)
      | none => pure none
    | none => rasqal_literal_to_redland_node (some t.object)
  let nodes := array3_set nodes 2 n2
  let m : rasqal_triple_meta := ⟨array3_set m.bindings 2 var⟩
  match librdf_new_statement_from_nodes rtsc.world (nodes 0) (nodes 1) (nodes 2) with
  | none => pure (m, none)
  | some qstatement =>
    pure (m, some { nodes := nodes, qstatement := some qstatement,
                    stream := rtsc.model.find_statements qstatement })

/-! ## Concrete instances used to evaluate the definitions -/

/-- Modelled from the spec: `librdf_node_equals` (rdf_node.c) is not among the
sources. Spec section 4.3: structural equality, same node kind and same
lexical content, URI or identifier. -/
def librdf_node_equals (a b : librdf_node) : Bool :=
  decide (a = b)

/-- No variable holds a value and no assignment has been made. -/
def rasqal_variables.unset : rasqal_variables :=
  { value := fun _ => none, assigned := [] }

/-- A match context positioned on the given candidates. -/
def rasqal_redland_triples_match_context.over (items : List librdf_statement) :
    rasqal_redland_triples_match_context :=
  { nodes := fun _ => none, qstatement := none, stream := some ⟨items⟩ }

/-- Three nodes used to evaluate the definitions. -/
def node_A : librdf_node := .resource "http://example/A"

/-- See `node_A`. -/
def node_P : librdf_node := .resource "http://example/P"

/-- See `node_A`. -/
def node_B : librdf_node := .resource "http://example/B"

/-- Modelled from the spec: `rasqal_new_variable_literal`, the literal of a
pattern slot that is the variable `v`. -/
def rasqal_new_variable_literal (v : rasqal_variable) : rasqal_literal :=
  { type := .VARIABLE, string := none, language := none, datatype := none,
    value_uri := none, value_variable := some v }

/-- Whether a statement matches a query statement, a `NULL` node matching any node. -/
def librdf_statement.is_match (st : librdf_statement) (q : librdf_query_statement) : Bool :=
  (q.subject.all fun n => librdf_node_equals st.subject n) &&
  (q.predicate.all fun n => librdf_node_equals st.predicate n) &&
  (q.object.all fun n => librdf_node_equals st.object n)

/-- Modelled from the spec: a store with an exact lookup (spec section 6):
`find_statements` streams the statements that match the query statement and
`contains_statement` is non-zero when one does. -/
def librdf_model.exact (statements : List librdf_statement) : librdf_model :=
  { find_statements := fun q => some ⟨statements.filter fun st => st.is_match q⟩,
    contains_statement := fun q =>
      match q with
      | some q => if statements.any fun st => st.is_match q then 1 else 0
      | none => 0 }

/-- Modelled from the spec: a store whose lookup is approximate (spec section
4.2), here one that streams every statement it holds as a candidate. -/
def librdf_model.approximate (statements : List librdf_statement) : librdf_model :=
  { find_statements := fun _ => some ⟨statements⟩,
    contains_statement := fun q =>
      match q with
      | some q => if statements.any fun st => st.is_match q then 1 else 0
      | none => 0 }

/-- The node the spec's `newMatch` puts at a slot of the query triple (spec
section 4.2): the converted constant, the converted value of a variable that
holds one, the wildcard for a variable without a value. -/
def query_node (σ : rasqal_variables) (l : rasqal_literal) :
    Except Fault (Option librdf_node) :=
  match rasqal_literal_as_variable l with
  | none => rasqal_literal_to_redland_node (some l)
  | some v =>
    match σ.value v with
    | some value => rasqal_literal_to_redland_node (some value)
    | none => .ok none

/-- The start of the caller's protocol: `new_triples_match` on a pattern with a
fresh `rasqal_triple_meta`, then `bind_match` on the first candidate with the
bindings recorded there; `none` when no match is returned. -/
def bind_first_candidate (librdf_node_equals : librdf_node → librdf_node → Bool)
    (rtsc : rasqal_redland_triples_source_user_data) (σ : rasqal_variables)
    (t : rasqal_triple) : Option (Int × rasqal_variables) :=
  match rasqal_redland_new_triples_match rtsc σ ⟨fun _ => none⟩ t with
  | .ok (m, some rtmc) => some (rasqal_redland_bind_match librdf_node_equals rtmc m.bindings σ)
  | _ => none

/-- The pattern `(?x, P, ?o)` with `x` the variable 0 and `o` the variable 1. -/
def pattern_x_P_o : rasqal_triple :=
  ⟨rasqal_new_variable_literal 0, redland_node_to_rasqal_literal node_P,
    rasqal_new_variable_literal 1⟩

/-- The variables when only `x`, the variable 0, holds a value, the literal of `A`. -/
def x_holds_A : rasqal_variables :=
  rasqal_variable_set_value .unset 0 (redland_node_to_rasqal_literal node_A)

/-- A triples source without allocation failure over a store with an
approximate lookup that holds the single statement `(B, P, B)`. -/
def source_approximate_B_P_B : rasqal_redland_triples_source_user_data :=
  ⟨⟨false⟩, .approximate [⟨node_B, node_P, node_B⟩]⟩

/-- A triples source without allocation failure over a store with an exact
lookup that holds `(A, P, A)` and `(B, P, B)`. -/
def source_exact : rasqal_redland_triples_source_user_data :=
  ⟨⟨false⟩, .exact [⟨node_A, node_P, node_A⟩, ⟨node_B, node_P, node_B⟩]⟩

/-- The query statement `(A, P, wildcard)`. -/
def query_A_P_any : librdf_query_statement :=
  ⟨some node_A, some node_P, none⟩

/-- A three-element array, as the three binding slots or the three nodes. -/
def slots {α : Type} (b0 b1 b2 : α) : Fin 3 → α :=
  fun i =>
    match i with
    | 0 => b0
    | 1 => b1
    | 2 => b2

/-- The assignments the spec's algorithm makes for the slots before slot `k`:
in the order subject, predicate, object, a slot that holds a variable not held
by an earlier slot assigns it the literal converted from the candidate's node
at that slot. -/
def first_slot_assignments (bindings : Fin 3 → Option rasqal_variable)
    (statement : librdf_statement) (k : Nat) : List (rasqal_variable × rasqal_literal) :=
  (List.finRange 3).filterMap fun i =>
    match bindings i with
    | some v =>
      if i.val < k ∧ ∀ j : Fin 3, j < i → bindings j ≠ some v then
        some (v, redland_node_to_rasqal_literal (statement.part i))
      else none
    | none => none

/-- The values of the variables after the assignments of `l`, made in order. -/
def apply_assignments (value : rasqal_variable → Option rasqal_literal)
    (l : List (rasqal_variable × rasqal_literal)) : rasqal_variable → Option rasqal_literal :=
  l.foldl (fun f a u => if u = a.1 then some a.2 else f u) value

/-! ## Existence test, disposal and the kinds of literal -/

/-- The literal kinds `rasqal_literal_to_redland_node` converts: URI, string,
integer, floating, boolean and blank. -/
def rasqal_literal_type.recognised : rasqal_literal_type → Bool
  | .URI | .STRING | .INTEGER | .FLOATING | .BOOLEAN | .BLANK => true
  | _ => false

/-- A literal carries the field its kind is converted from: `value.uri` for a
URI literal, `string` for every other kind. -/
def rasqal_literal.has_content (l : rasqal_literal) : Bool :=
  if l.type = .URI then l.value_uri.isSome else l.string.isSome

/-- Source: `rasqal_redland_triple_present`. The statement pointer is passed to
`librdf_model_contains_statement` unchecked. -/
def rasqal_redland_triple_present (rtsc : rasqal_redland_triples_source_user_data)
    (t : rasqal_triple) : Except Fault Int := do
  let n0 ← rasqal_literal_to_redland_node (some t.subject)
  let n1 ← rasqal_literal_to_redland_node (some t.predicate)
  let n2 ← rasqal_literal_to_redland_node (some t.object)
  let s := librdf_new_statement_from_nodes rtsc.world n0 n1 n2
  let rc := rtsc.model.contains_statement s
  pure rc

/-- What a call of `rasqal_redland_finish_triples_match` releases:
`librdf_free_stream`, `librdf_free_statement` and `LIBRDF_FREE` of the context. -/
inductive release where
  | free_stream (stream : librdf_stream)
  | free_statement (qstatement : Option librdf_query_statement)
  | free_context
  deriving DecidableEq, Repr

/-- Source: `rasqal_redland_finish_triples_match`, on the fields read through the
context pointer. The result is what is left behind the pointer, `none`:
`LIBRDF_FREE` releases the context, and the `NULL` written to its stream field
goes with it; with it the releases the call makes, in order. -/
def rasqal_redland_finish_triples_match (rtmc : rasqal_redland_triples_match_context) :
    Option rasqal_redland_triples_match_context × List release :=
  -- if(rtmc->stream) { librdf_free_stream(rtmc->stream); rtmc->stream=NULL; }
  let (rtmc, released) :=
    match rtmc.stream with
    | some stream => ({ rtmc with stream := none }, [release.free_stream stream])
    | none => (rtmc, [])
  -- librdf_free_statement(rtmc->qstatement);
  let released := released ++ [release.free_statement rtmc.qstatement]
  -- LIBRDF_FREE(rasqal_redland_triples_match_context, rtmc);
  (none, released ++ [release.free_context])

/-- The first-seen-reference algorithm of spec section 4.3, on the slots listed
in `todo`: `seen` records the candidate's node at the first slot of each variable
met so far. A slot without variable is skipped; a variable not yet seen has its
node recorded and is assigned the literal converted from it; a variable already
seen has its node compared with the recorded node, and the call is rejected
with 1 at the first that differs. -/
def bind_first_seen_from (librdf_node_equals : librdf_node → librdf_node → Bool)
    (statement : librdf_statement) (bindings : Fin 3 → Option rasqal_variable) :
    List (Fin 3) → List (rasqal_variable × librdf_node) → rasqal_variables →
      Int × rasqal_variables
  | [], _, σ => (0, σ)
  | i :: todo, seen, σ =>
    match bindings i with
    | none => bind_first_seen_from librdf_node_equals statement bindings todo seen σ
    | some v =>
      match seen.lookup v with
      | none =>
        bind_first_seen_from librdf_node_equals statement bindings todo
          ((v, statement.part i) :: seen)
          (rasqal_variable_set_value σ v (redland_node_to_rasqal_literal (statement.part i)))
      | some reference =>
        if librdf_node_equals reference (statement.part i) then
          bind_first_seen_from librdf_node_equals statement bindings todo seen σ
        else (1, σ)

/-- The `bind` of spec section 4.3: the first-seen-reference algorithm over the
slots subject, predicate, object, starting with nothing seen. -/
def bind_first_seen (librdf_node_equals : librdf_node → librdf_node → Bool)
    (statement : librdf_statement) (bindings : Fin 3 → Option rasqal_variable)
    (σ : rasqal_variables) : Int × rasqal_variables :=
  bind_first_seen_from librdf_node_equals statement bindings [0, 1, 2] [] σ

/-! ## The GDBM hash (`librdf/rdf_hash_gdbm.c`) -/

/-- The `datum` of GDBM: a byte buffer, `NULL` or not, and its size. -/
structure datum where
  dptr : Option (List Nat)
  dsize : Nat
  deriving DecidableEq, Repr

/-- Source: `librdf_hash_data`, of which the code reads `data` and `size`. -/
structure librdf_hash_data where
  data : Option (List Nat)
  size : Nat
  deriving DecidableEq, Repr

/-- An open GDBM file: the key/value pairs it holds. -/
abbrev GDBM_FILE := List (List Nat × List Nat)

/-- Source: `librdf_hash_gdbm_context`. -/
structure librdf_hash_gdbm_context where
  gdbm_file : GDBM_FILE
  file_name : String
  current_key : datum
  deriving DecidableEq, Repr

/-- The flag `GDBM_REPLACE` of gdbm.h. -/
def GDBM_REPLACE : Int := 1

/-- Source: `librdf_hash_gdbm_put`. `gdbm_store` is the function of the GDBM
library: it gives its return value and the file after the call. The code drops
the return value. -/
def librdf_hash_gdbm_put
    (gdbm_store : GDBM_FILE → datum → datum → Int → Int × GDBM_FILE)
    (context : librdf_hash_gdbm_context) (key value : librdf_hash_data) (_flags : Nat) :
    Int × librdf_hash_gdbm_context :=
  let gdbm_key : datum := ⟨key.data, key.size⟩
  let gdbm_data : datum := ⟨value.data, value.size⟩
  let stored := gdbm_store context.gdbm_file gdbm_key gdbm_data GDBM_REPLACE
  (0, { context with gdbm_file := stored.2 })

/-- The `gdbm_store` of the GDBM manual: -1, nothing stored, when the key or the
content has a `NULL` `dptr`; otherwise the pair is stored and 0 returned, with
`GDBM_REPLACE` in place of an existing pair of the same key, while with
`GDBM_INSERT` an existing key is kept and 1 returned. -/
def gdbm_store_documented (file : GDBM_FILE) (key content : datum) (flag : Int) :
    Int × GDBM_FILE :=
  match key.dptr, content.dptr with
  | some k, some c =>
    if flag = GDBM_REPLACE then (0, (k, c) :: file.filter fun p => p.1 ≠ k)
    else if file.any fun p => p.1 = k then (1, file)
    else (0, (k, c) :: file)
  | _, _ => (-1, file)

/-! ## rdf-tree (`utils/rdf-tree.c`) -/

/-- Source: the test `librdf_node_get_type(object)==LIBRDF_NODE_TYPE_RESOURCE ||
librdf_node_get_type(object)==LIBRDF_NODE_TYPE_BLANK` of `tree`. -/
def librdf_node.is_resource_or_blank : librdf_node → Bool
  | .resource _ => true
  | .blank _ => true
  | .literal _ _ _ => false

/-- Modelled from the spec: `librdf_model_add_statement` on the output model, a
memory store held as the list of its statements: the statement is added at the
end and 0 returned, or non-zero returned when the allocation fails. -/
def librdf_model_add_statement (world : librdf_world) (outputmodel : List librdf_statement)
    (statement : librdf_statement) : Int × List librdf_statement :=
  if world.out_of_memory then (1, outputmodel) else (0, outputmodel ++ [statement])

/-- Modelled from the spec: `librdf_new_statement_from_statement`, the copy of a
statement, as a query statement with its three nodes. -/
def librdf_new_statement_from_statement (statement : librdf_statement) :
    librdf_query_statement :=
  ⟨some statement.subject, some statement.predicate, some statement.object⟩

/-- Source: the `while (!librdf_stream_end(instream))` loop of `tree`, on the
statements `instream` still holds. `recurse` is the recursive call of `tree`;
the output model is a memory store with an exact lookup; the result is the
return code with the output model, `none` when `recurse` gave none. -/
def tree_while (world : librdf_world)
    (recurse : librdf_node → List librdf_statement → Int →
      Option (Int × List librdf_statement))
    (level : Int) :
    List librdf_statement → List librdf_statement → Option (Int × List librdf_statement)
  | [], outputmodel => some (0, outputmodel)
  | current :: instream, outputmodel =>
    -- Check for duplicates.
    match (librdf_model.exact outputmodel).find_statements
        (librdf_new_statement_from_statement current) with
    | none => some (1, outputmodel)
    | some outstream =>
      if librdf_stream_end outstream then
        -- Add statement to output model
        let added := librdf_model_add_statement world outputmodel current
        if added.1 ≠ 0 then some (1, added.2)
        else
          -- Check for recursive adds...
          let object := current.object
          if level ≠ 0 ∧ object.is_resource_or_blank = true then
            -- Don't recurse if there are already statements about object.
            match librdf_new_statement_from_nodes world (some object) none none with
            | none => some (1, added.2)
            | some about_object =>
              match (librdf_model.exact added.2).find_statements about_object with
              | none => some (1, added.2)
              | some outstream =>
                if librdf_stream_end outstream then
                  match recurse object added.2 (level - 1) with
                  | none => none
                  | some r =>
                    if r.1 ≠ 0 then some (1, r.2)
                    else tree_while world recurse level instream r.2
                else tree_while world recurse level instream added.2
          else tree_while world recurse level instream added.2
      else tree_while world recurse level instream outputmodel

/-- Source: `tree`. `fuel` bounds the depth of the recursion, `none` is the
result when it is exhausted; `level` is the C `int`, here without its
wrap-around; the result is the return code with the output model. -/
def tree (world : librdf_world) (model : librdf_model) :
    Nat → librdf_node → List librdf_statement → Int → Option (Int × List librdf_statement)
  | 0, _, _, _ => none
  | fuel + 1, node, outputmodel, level =>
    -- Find all statements about node.
    match librdf_new_statement_from_nodes world (some node) none none with
    | none => some (1, outputmodel)
    | some statement =>
      match model.find_statements statement with
      | none => some (1, outputmodel)
      | some instream =>
        tree_while world (tree world model fuel) level instream.items outputmodel

/-- A node is reached from `node` by following at most `k` object links of the
model through resource or blank objects. -/
def reachable_within (model : List librdf_statement) (node : librdf_node) :
    Nat → librdf_node → Bool
  | 0, x => decide (x = node)
  | k + 1, x =>
    reachable_within model node k x ||
      model.any fun st =>
        reachable_within model node k st.subject && decide (st.object = x) &&
          x.is_resource_or_blank

/-- See `node_A`. -/
def node_C : librdf_node := .resource "http://example/C"

/-- See `node_A`. -/
def node_D : librdf_node := .resource "http://example/D"

/-- See `node_A`. -/
def node_E : librdf_node := .resource "http://example/E"

/-- A model in which `D` is two object links away from `A`, through `C`, and
`C` is also two links away through `B`. -/
def model_two_paths : List librdf_statement :=
  [⟨node_A, node_P, node_B⟩, ⟨node_A, node_P, node_C⟩, ⟨node_B, node_P, node_C⟩,
    ⟨node_C, node_P, node_D⟩, ⟨node_D, node_P, node_E⟩]

/-- The output model holds every statement of the model about each subject it has
a statement about, the subjects in `A` apart. -/
def closed_except (model out : List librdf_statement) (A : librdf_node → Prop) : Prop :=
  ∀ st ∈ model, ¬ A st.subject → (∃ s ∈ out, s.subject = st.subject) → st ∈ out

/-- What a call of `tree` on `node` that returns 0 does to the output model, when
no statement about `node` was in it: the output model grows, it holds every
statement of the model about `node`, it stays closed, and each statement added
has a subject that had no statement before. -/
def tree_post (model : List librdf_statement) (node : librdf_node)
    (out out' : List librdf_statement) : Prop :=
  (∀ s ∈ out, s ∈ out') ∧
  (∀ st ∈ model, st.subject = node → st ∈ out') ∧
  (∀ A : librdf_node → Prop, closed_except model out A → closed_except model out' A) ∧
  (∀ s ∈ out', s ∉ out → ∀ s0 ∈ out, s0.subject ≠ s.subject)

/-- The statements of the model whose subject has no statement in the output
model: what `tree` can still enter. -/
def statements_about_new_subjects (model out : List librdf_statement) :
    List librdf_statement :=
  model.filter fun st => out.all fun s => decide (s.subject ≠ st.subject)

/-! ## Initialising a query (`librdf_query_rasqal_init`) -/

/-- Modelled from the spec: `librdf_query`, of which `librdf_query_rasqal_init`
reads `factory->name`; `id` stands for the address of the object. -/
structure librdf_query where
  id : Nat
  factory_name : String
  deriving DecidableEq, Repr

/-- Modelled from the spec: `rasqal_query`, the query object of Rasqal, with the
language it was created for and the user data set on it. -/
structure rasqal_query where
  language : String
  user_data : Option librdf_query
  deriving DecidableEq, Repr

/-- Modelled from the spec: `rasqal_query_set_user_data`. -/
def rasqal_query_set_user_data (rq : rasqal_query) (user_data : librdf_query) :
    rasqal_query :=
  { rq with user_data := some user_data }

/-- Source: `librdf_query_rasqal_context`, the `model` field apart, which
`librdf_query_rasqal_init` neither reads nor writes. -/
structure librdf_query_rasqal_context where
  query : Option librdf_query
  rq : Option rasqal_query
  language : Option String
  query_string : Option String
  uri : Option librdf_uri
  deriving DecidableEq, Repr

/-- Source: `librdf_query_rasqal_init`. `rasqal_new_query` is the constructor of
Rasqal, `NULL` when the query object cannot be created; `malloc n` tells
whether `LIBRDF_MALLOC` of `n` bytes succeeds; `librdf_new_uri_from_uri` copies
the URI. The result is the return code with the context after the call. -/
def librdf_query_rasqal_init (rasqal_new_query : String → Option rasqal_query)
    (malloc : Nat → Bool) (context : librdf_query_rasqal_context) (query : librdf_query)
    (uri : Option librdf_uri) (query_string : String) :
    Int × librdf_query_rasqal_context :=
  -- context->query = query; context->language=context->query->factory->name;
  let context := { context with query := some query, language := some query.factory_name }
  -- context->rq=rasqal_new_query(context->language, NULL);
  let context := { context with rq := rasqal_new_query query.factory_name }
  match context.rq with
  | none => (1, context)
  | some rq =>
    -- rasqal_query_set_user_data(context->rq, query);
    let context := { context with rq := some (rasqal_query_set_user_data rq query) }
    -- len=strlen(query_string); query_string_copy=LIBRDF_MALLOC(cstring, len+1);
    let len := query_string.utf8ByteSize
    if !malloc (len + 1) then (0, context)
    else
      -- strcpy; context->query_string=query_string_copy;
      let context := { context with query_string := some query_string }
      -- if(uri) context->uri=librdf_new_uri_from_uri(uri);
      let context :=
        match uri with
        | some uri => { context with uri := some uri }
        | none => context
      (0, context)

/-- A context as the factory hands it to `init`: every field zero. -/
def librdf_query_rasqal_context.zeroed : librdf_query_rasqal_context :=
  ⟨none, none, none, none, none⟩

/-! ## Helper lemmas -/

theorem value_set_value_same (σ : rasqal_variables) (v : rasqal_variable) (l : rasqal_literal) :
    (rasqal_variable_set_value σ v l).value v = some l := by
  simp [rasqal_variable_set_value]

theorem value_set_value_other (σ : rasqal_variables) (v u : rasqal_variable) (l : rasqal_literal)
    (h : u ≠ v) : (rasqal_variable_set_value σ v l).value u = σ.value u := by
  simp [rasqal_variable_set_value, h]

theorem assigned_set_value (σ : rasqal_variables) (v : rasqal_variable) (l : rasqal_literal) :
    (rasqal_variable_set_value σ v l).assigned = σ.assigned ++ [(v, l)] := rfl

theorem librdf_node_equals_equivalence :
    Equivalence fun a b => librdf_node_equals a b = true := by
  refine ⟨?_, ?_, ?_⟩
  · intro a; simp [librdf_node_equals]
  · intro a b h; simpa [librdf_node_equals, eq_comm] using h
  · intro a b c h1 h2
    simp only [librdf_node_equals, decide_eq_true_eq] at h1 h2 ⊢
    exact h1.trans h2

theorem current_over_cons (st : librdf_statement) (items : List librdf_statement) :
    (rasqal_redland_triples_match_context.over (st :: items)).current = some st := rfl

theorem first_slot_assignments_eq (bindings : Fin 3 → Option rasqal_variable)
    (st : librdf_statement) (k : Nat) :
    first_slot_assignments bindings st k =
      (match bindings 0 with
        | some v => if 0 < k then [(v, redland_node_to_rasqal_literal st.subject)] else []
        | none => []) ++
      ((match bindings 1 with
        | some v =>
          if 1 < k ∧ bindings 0 ≠ some v then
            [(v, redland_node_to_rasqal_literal st.predicate)] else []
        | none => []) ++
      (match bindings 2 with
        | some v =>
          if 2 < k ∧ bindings 0 ≠ some v ∧ bindings 1 ≠ some v then
            [(v, redland_node_to_rasqal_literal st.object)] else []
        | none => [])) := by
  have h3 : List.finRange 3 = [0, 1, 2] := by decide
  unfold first_slot_assignments
  rw [h3]
  simp only [List.filterMap_cons, List.filterMap_nil, librdf_statement.part]
  rcases h0 : bindings 0 with _ | a <;> rcases h1 : bindings 1 with _ | b <;>
    rcases h2 : bindings 2 with _ | c <;>
    simp [Fin.forall_fin_succ, Fin.lt_def, h0, h1, h2]
  all_goals (split_ifs <;> rfl)

theorem bind_match_accepted_assigned (eq : librdf_node → librdf_node → Bool)
    (rtmc : rasqal_redland_triples_match_context) (st : librdf_statement)
    (hcur : rtmc.current = some st)
    (bindings : Fin 3 → Option rasqal_variable) (σ : rasqal_variables)
    (hacc : (rasqal_redland_bind_match eq rtmc bindings σ).1 = 0) :
    (rasqal_redland_bind_match eq rtmc bindings σ).2.assigned =
        σ.assigned ++ first_slot_assignments bindings st 3 := by
  rw [first_slot_assignments_eq]
  revert hacc
  rcases h0 : bindings 0 with _ | a <;> rcases h1 : bindings 1 with _ | b <;>
    rcases h2 : bindings 2 with _ | c <;>
    simp [rasqal_redland_bind_match, hcur, h0, h1, h2, assigned_set_value]
  all_goals (split_ifs <;> simp_all [assigned_set_value])

/-! ## Consistency of aliased slots -/

/-- C1: for a candidate statement and any three binding slots, with a node
equality that is an equivalence relation, `rasqal_redland_bind_match` returns 0
exactly when every two slots `i < j` holding the same variable have equal
candidate nodes at `i` and `j`; otherwise it returns 1. -/
theorem bind_match_accepts_iff_aliased_slots_equal
    (eq : librdf_node → librdf_node → Bool)
    (heq : Equivalence fun a b => eq a b = true)
    (rtmc : rasqal_redland_triples_match_context) (st : librdf_statement)
    (hcur : rtmc.current = some st)
    (bindings : Fin 3 → Option rasqal_variable) (σ : rasqal_variables) :
    ((rasqal_redland_bind_match eq rtmc bindings σ).1 = 0 ↔
      ∀ i j : Fin 3, i < j → ∀ v, bindings i = some v → bindings j = some v →
        eq (st.part i) (st.part j) = true) ∧
    ((rasqal_redland_bind_match eq rtmc bindings σ).1 = 0 ∨
      (rasqal_redland_bind_match eq rtmc bindings σ).1 = 1) := by
  have hs := fun a b => @Equivalence.symm _ _ heq a b
  have ht := fun a b c => @Equivalence.trans _ _ heq a b c
  simp only [Fin.forall_fin_succ, Fin.forall_fin_zero_pi]
  rcases h0 : bindings 0 with _ | a <;> rcases h1 : bindings 1 with _ | b <;>
    rcases h2 : bindings 2 with _ | c <;>
    simp [rasqal_redland_bind_match, hcur, h0, h1, h2, librdf_statement.part]
  · by_cases hbc : b = c
    · subst hbc; cases hpo : eq st.predicate st.object <;> simp
    · simp [hbc, Ne.symm hbc]
  · by_cases hac : a = c
    · subst hac; cases hso : eq st.subject st.object <;> simp
    · simp [hac, Ne.symm hac]
  · by_cases hab : a = b
    · subst hab; cases hsp : eq st.subject st.predicate <;> simp
    · simp [hab, Ne.symm hab]
  · by_cases hab : a = b
    · subst hab
      by_cases hac : a = c
      · subst hac
        cases hsp : eq st.subject st.predicate <;> cases hso : eq st.subject st.object <;>
          simp
        exact ht _ _ _ (hs _ _ hsp) hso
      · cases hsp : eq st.subject st.predicate <;> simp [hac, Ne.symm hac]
    · by_cases hac : a = c
      · subst hac
        cases hso : eq st.subject st.object <;> simp [hab, Ne.symm hab]
      · by_cases hbc : b = c
        · subst hbc
          cases hpo : eq st.predicate st.object <;> simp [hab, Ne.symm hab]
        · simp [hab, Ne.symm hab, hac, Ne.symm hac, hbc, Ne.symm hbc]

/-- Witness of C1: the pattern `?x ?y ?x` on the candidate `(A, P, B)` with
structural node equality. -/
theorem bind_match_accepts_iff_aliased_slots_equal_witness :
    ((rasqal_redland_bind_match librdf_node_equals (.over [⟨node_A, node_P, node_B⟩])
        (slots (some 0) (some 1) (some 0)) .unset).1 = 0 ↔
      ∀ i j : Fin 3, i < j → ∀ v, slots (some 0) (some 1) (some 0) i = some v →
        slots (some 0) (some 1) (some 0) j = some v →
        librdf_node_equals ((⟨node_A, node_P, node_B⟩ : librdf_statement).part i)
          ((⟨node_A, node_P, node_B⟩ : librdf_statement).part j) = true) ∧
    ((rasqal_redland_bind_match librdf_node_equals (.over [⟨node_A, node_P, node_B⟩])
        (slots (some 0) (some 1) (some 0)) .unset).1 = 0 ∨
      (rasqal_redland_bind_match librdf_node_equals (.over [⟨node_A, node_P, node_B⟩])
        (slots (some 0) (some 1) (some 0)) .unset).1 = 1) :=
  bind_match_accepts_iff_aliased_slots_equal librdf_node_equals
    librdf_node_equals_equivalence (.over [⟨node_A, node_P, node_B⟩]) ⟨node_A, node_P, node_B⟩
    rfl (slots (some 0) (some 1) (some 0)) .unset

/-! ## The caller loop on `(?x, P, ?x)` -/

theorem bind_match_subject_object_alias (eq : librdf_node → librdf_node → Bool)
    (x : rasqal_variable) (rtmc : rasqal_redland_triples_match_context)
    (st : librdf_statement) (hcur : rtmc.current = some st) (σ : rasqal_variables) :
    ((rasqal_redland_bind_match eq rtmc (slots (some x) none (some x)) σ).1 =
        if eq st.subject st.object then 0 else 1) ∧
    (rasqal_redland_bind_match eq rtmc (slots (some x) none (some x)) σ).2 =
      rasqal_variable_set_value σ x (redland_node_to_rasqal_literal st.subject) := by
  cases h : eq st.subject st.object <;>
    simp [rasqal_redland_bind_match, hcur, slots, h]

theorem match_loop_cons (eq : librdf_node → librdf_node → Bool)
    (bindings : Fin 3 → Option rasqal_variable) (n : Nat)
    (rtmc : rasqal_redland_triples_match_context) (σ : rasqal_variables)
    (st : librdf_statement) (rest : List librdf_statement)
    (hs : rtmc.stream = some ⟨st :: rest⟩) :
    match_loop eq bindings (n + 1) rtmc σ =
      rasqal_redland_bind_match eq rtmc bindings σ ::
        match_loop eq bindings n (rasqal_redland_next_match rtmc)
          (rasqal_redland_bind_match eq rtmc bindings σ).2 := by
  simp [match_loop, rasqal_redland_is_end, hs, librdf_stream_end]

theorem match_loop_nil (eq : librdf_node → librdf_node → Bool)
    (bindings : Fin 3 → Option rasqal_variable) (n : Nat)
    (rtmc : rasqal_redland_triples_match_context) (σ : rasqal_variables)
    (hs : rtmc.stream = some ⟨[]⟩) :
    match_loop eq bindings n rtmc σ = [] := by
  cases n <;> simp [match_loop, rasqal_redland_is_end, hs, librdf_stream_end]

theorem next_match_stream (rtmc : rasqal_redland_triples_match_context)
    (st : librdf_statement) (rest : List librdf_statement)
    (hs : rtmc.stream = some ⟨st :: rest⟩) :
    (rasqal_redland_next_match rtmc).stream = some ⟨rest⟩ := by
  simp [rasqal_redland_next_match, hs, librdf_stream_next]

theorem current_of_stream (rtmc : rasqal_redland_triples_match_context)
    (st : librdf_statement) (rest : List librdf_statement)
    (hs : rtmc.stream = some ⟨st :: rest⟩) : rtmc.current = some st := by
  simp [rasqal_redland_triples_match_context.current, hs, librdf_stream_get_object]

/-- C2: for the pattern `(?x, P, ?x)`, binding slots `[x, absent, x]`, and every
finite candidate stream, the caller's loop (bind on the current candidate, then
advance, until is_end) visits every candidate once, gets 0 (accepted) exactly
for the candidates whose subject equals their object and 1 otherwise, each time
with `x` set to the literal converted from the candidate's subject; for the
stream `(A,P,A), (A,P,B)` with `A` different from `B` the return codes are 0
then 1, so exactly one candidate is accepted, with `x = A`. -/
theorem match_loop_subject_object_alias (eq : librdf_node → librdf_node → Bool)
    (hrefl : ∀ a, eq a a = true) (x : rasqal_variable) (fuel : Nat) :
    (∀ (items : List librdf_statement) (rtmc : rasqal_redland_triples_match_context)
        (σ : rasqal_variables), rtmc.stream = some ⟨items⟩ → items.length ≤ fuel →
      List.Forall₂
        (fun st r => (r.1 = 0 ↔ eq st.subject st.object = true) ∧ (r.1 = 0 ∨ r.1 = 1) ∧
          r.2.value x = some (redland_node_to_rasqal_literal st.subject))
        items (match_loop eq (slots (some x) none (some x)) fuel rtmc σ)) ∧
    (∀ (A P B : librdf_node) (σ : rasqal_variables), eq A B = false → 2 ≤ fuel →
      (match_loop eq (slots (some x) none (some x)) fuel (.over [⟨A, P, A⟩, ⟨A, P, B⟩]) σ).map
          (fun r => r.1) = [0, 1] ∧
      ((match_loop eq (slots (some x) none (some x)) fuel
          (.over [⟨A, P, A⟩, ⟨A, P, B⟩]) σ).filter (fun r => r.1 = 0)).map
          (fun r => r.2.value x) = [some (redland_node_to_rasqal_literal A)]) := by
  constructor
  · induction fuel with
    | zero =>
      intro items rtmc σ _ hlen
      have : items = [] := List.length_eq_zero.mp (Nat.le_zero.mp hlen)
      subst this
      simp [match_loop]
    | succ n ih =>
      intro items rtmc σ hs hlen
      cases items with
      | nil => rw [match_loop_nil eq _ _ rtmc σ hs]; exact List.Forall₂.nil
      | cons st rest =>
        have hb := bind_match_subject_object_alias eq x rtmc st
          (current_of_stream rtmc st rest hs) σ
        rw [match_loop_cons eq _ n rtmc σ st rest hs]
        refine List.Forall₂.cons ?_
          (ih rest _ _ (next_match_stream rtmc st rest hs) (by simpa using hlen))
        rw [hb.1, hb.2]
        cases h : eq st.subject st.object <;> simp [value_set_value_same]
  · intro A P B σ hAB hfuel
    obtain ⟨n, rfl⟩ : ∃ n, fuel = n + 2 := ⟨fuel - 2, by omega⟩
    have hs1 : (rasqal_redland_triples_match_context.over [⟨A, P, A⟩, ⟨A, P, B⟩]).stream =
        some ⟨[⟨A, P, A⟩, ⟨A, P, B⟩]⟩ := rfl
    have hs2 := next_match_stream _ _ _ hs1
    have hs3 := next_match_stream _ _ _ hs2
    have h1 := bind_match_subject_object_alias eq x _ _ (current_of_stream _ _ _ hs1) σ
    rw [match_loop_cons eq _ (n + 1) _ σ _ _ hs1, match_loop_cons eq _ n _ _ _ _ hs2,
      match_loop_nil eq _ n _ _ hs3]
    have h2 := bind_match_subject_object_alias eq x _ _ (current_of_stream _ _ _ hs2)
      (rasqal_redland_bind_match eq (.over [⟨A, P, A⟩, ⟨A, P, B⟩])
        (slots (some x) none (some x)) σ).2
    simp only [hrefl, hAB, if_true, Bool.false_eq_true, if_false] at h1 h2
    rw [h1.2] at h2
    simp [h1.1, h1.2, h2.1, value_set_value_same]

/-- Witness of C2: the stream `(A,P,A), (A,P,B)` with structural node equality. -/
theorem match_loop_subject_object_alias_witness :
    (match_loop librdf_node_equals (slots (some 0) none (some 0)) 2
        (.over [⟨node_A, node_P, node_A⟩, ⟨node_A, node_P, node_B⟩]) .unset).map
        (fun r => r.1) = [0, 1] ∧
    ((match_loop librdf_node_equals (slots (some 0) none (some 0)) 2
        (.over [⟨node_A, node_P, node_A⟩, ⟨node_A, node_P, node_B⟩]) .unset).filter
        (fun r => r.1 = 0)).map (fun r => r.2.value 0) =
      [some (redland_node_to_rasqal_literal node_A)] :=
  (match_loop_subject_object_alias librdf_node_equals librdf_node_equals_equivalence.refl
    0 2).2 node_A node_P node_B .unset (by decide) (by decide)

/-! ## Patterns without aliasing -/

/-- C3: when the variables present in the three binding slots are pairwise
distinct, `rasqal_redland_bind_match` accepts every candidate, makes one
assignment per present slot, in slot order, of the literal converted from the
candidate's node at that slot, none for an absent slot, so that each present
variable holds that literal afterwards and every other variable is unchanged. -/
theorem bind_match_without_aliasing (eq : librdf_node → librdf_node → Bool)
    (rtmc : rasqal_redland_triples_match_context) (st : librdf_statement)
    (hcur : rtmc.current = some st)
    (bindings : Fin 3 → Option rasqal_variable) (σ : rasqal_variables)
    (hdist : ∀ i j : Fin 3, i ≠ j → ∀ v, bindings i = some v → bindings j ≠ some v) :
    (rasqal_redland_bind_match eq rtmc bindings σ).1 = 0 ∧
    (rasqal_redland_bind_match eq rtmc bindings σ).2.assigned =
      σ.assigned ++ (List.finRange 3).filterMap (fun i =>
        (bindings i).map fun v => (v, redland_node_to_rasqal_literal (st.part i))) ∧
    (∀ (i : Fin 3) (v : rasqal_variable), bindings i = some v →
      (rasqal_redland_bind_match eq rtmc bindings σ).2.value v =
        some (redland_node_to_rasqal_literal (st.part i))) ∧
    (∀ u : rasqal_variable, (∀ i : Fin 3, bindings i ≠ some u) →
      (rasqal_redland_bind_match eq rtmc bindings σ).2.value u = σ.value u) := by
  have h3 : List.finRange 3 = [0, 1, 2] := by decide
  rw [h3]
  revert hdist
  simp only [Fin.forall_fin_succ, Fin.forall_fin_zero_pi, List.filterMap_cons,
    List.filterMap_nil]
  rcases h0 : bindings 0 with _ | a <;> rcases h1 : bindings 1 with _ | b <;>
    rcases h2 : bindings 2 with _ | c <;>
    simp [rasqal_redland_bind_match, hcur, h0, h1, h2, librdf_statement.part,
      assigned_set_value, rasqal_variable_set_value]
  all_goals intros
  all_goals simp_all
  all_goals
    intro u
    intros
    split_ifs <;> first | rfl | (exfalso; simp_all)

/-- Witness of C3: the pattern `(?s, P, ?o)` on the candidate `(A, P, B)`: accepted,
`s = A` and `o = B`, two assignments. -/
theorem bind_match_without_aliasing_witness :
    (rasqal_redland_bind_match librdf_node_equals (.over [⟨node_A, node_P, node_B⟩])
      (slots (some 0) none (some 1)) .unset).1 = 0 ∧
    (rasqal_redland_bind_match librdf_node_equals (.over [⟨node_A, node_P, node_B⟩])
      (slots (some 0) none (some 1)) .unset).2.value 0 =
        some (redland_node_to_rasqal_literal node_A) ∧
    (rasqal_redland_bind_match librdf_node_equals (.over [⟨node_A, node_P, node_B⟩])
      (slots (some 0) none (some 1)) .unset).2.value 1 =
        some (redland_node_to_rasqal_literal node_B) ∧
    (rasqal_redland_bind_match librdf_node_equals (.over [⟨node_A, node_P, node_B⟩])
      (slots (some 0) none (some 1)) .unset).2.assigned =
        [(0, redland_node_to_rasqal_literal node_A), (1, redland_node_to_rasqal_literal node_B)] :=
  have h := bind_match_without_aliasing librdf_node_equals (.over [⟨node_A, node_P, node_B⟩])
    ⟨node_A, node_P, node_B⟩ rfl (slots (some 0) none (some 1)) .unset (by decide)
  ⟨h.1, h.2.2.1 0 0 rfl, h.2.2.1 2 1 rfl, h.2.1⟩

/-! ## The pattern `(?x, ?x, ?x)` -/

/-- C4, counterexample: for the pattern `(?x, ?x, ?x)` the candidate `(A, P, A)`
with `P` different from `A` is rejected (return code 1), not accepted. -/
theorem bind_match_triple_alias_rejects_A_P_A :
    (rasqal_redland_bind_match librdf_node_equals (.over [⟨node_A, node_P, node_A⟩])
      (slots (some 0) (some 0) (some 0)) .unset).1 = 1 := by
  decide

/-- C4, amended: for the pattern `(?x, ?x, ?x)` and all nodes `A`, `P`, `B`, bind
on the candidate `(A, P, B)` is accepted exactly when `A` equals `P` and `A` equals
`B`, and is rejected with 1 otherwise; an accepted call makes the single
assignment `x = A`; so `(A, A, A)` is accepted with `x = A`. -/
theorem bind_match_triple_alias (eq : librdf_node → librdf_node → Bool)
    (hrefl : ∀ a, eq a a = true) (x : rasqal_variable)
    (rtmc : rasqal_redland_triples_match_context) (A P B : librdf_node)
    (hcur : rtmc.current = some ⟨A, P, B⟩) (σ : rasqal_variables) :
    ((rasqal_redland_bind_match eq rtmc (slots (some x) (some x) (some x)) σ).1 = 0 ↔
      eq A P = true ∧ eq A B = true) ∧
    ((rasqal_redland_bind_match eq rtmc (slots (some x) (some x) (some x)) σ).1 ≠ 0 →
      (rasqal_redland_bind_match eq rtmc (slots (some x) (some x) (some x)) σ).1 = 1) ∧
    ((rasqal_redland_bind_match eq rtmc (slots (some x) (some x) (some x)) σ).1 = 0 →
      (rasqal_redland_bind_match eq rtmc (slots (some x) (some x) (some x)) σ).2.assigned =
        σ.assigned ++ [(x, redland_node_to_rasqal_literal A)] ∧
      (rasqal_redland_bind_match eq rtmc (slots (some x) (some x) (some x)) σ).2.value x =
        some (redland_node_to_rasqal_literal A)) ∧
    (∀ rtmc' : rasqal_redland_triples_match_context, rtmc'.current = some ⟨A, A, A⟩ →
      (rasqal_redland_bind_match eq rtmc' (slots (some x) (some x) (some x)) σ).1 = 0 ∧
      (rasqal_redland_bind_match eq rtmc' (slots (some x) (some x) (some x)) σ).2.value x =
        some (redland_node_to_rasqal_literal A)) := by
  refine ⟨?_, ?_, ?_, ?_⟩
  · cases h1 : eq A P <;> cases h2 : eq A B <;>
      simp [rasqal_redland_bind_match, hcur, slots, h1, h2]
  · cases h1 : eq A P <;> cases h2 : eq A B <;>
      simp [rasqal_redland_bind_match, hcur, slots, h1, h2]
  · cases h1 : eq A P <;> cases h2 : eq A B <;>
      simp [rasqal_redland_bind_match, hcur, slots, h1, h2, rasqal_variable_set_value]
  · intro rtmc' hcur'
    simp [rasqal_redland_bind_match, hcur', slots, hrefl, rasqal_variable_set_value]

/-- Witness of C4 (amended): `(A, A, A)` is accepted with `x = A` under
structural node equality. -/
theorem bind_match_triple_alias_witness :
    (rasqal_redland_bind_match librdf_node_equals (.over [⟨node_A, node_A, node_A⟩])
      (slots (some 0) (some 0) (some 0)) .unset).1 = 0 ∧
    (rasqal_redland_bind_match librdf_node_equals (.over [⟨node_A, node_A, node_A⟩])
      (slots (some 0) (some 0) (some 0)) .unset).2.value 0 =
        some (redland_node_to_rasqal_literal node_A) :=
  (bind_match_triple_alias librdf_node_equals librdf_node_equals_equivalence.refl 0
    (.over [⟨node_A, node_P, node_B⟩]) node_A node_P node_B rfl .unset).2.2.2
    (.over [⟨node_A, node_A, node_A⟩]) rfl

/-! ## Values and assignments -/

theorem apply_assignments_append (value : rasqal_variable → Option rasqal_literal)
    (l : List (rasqal_variable × rasqal_literal)) (v : rasqal_variable) (x : rasqal_literal) :
    apply_assignments value (l ++ [(v, x)]) =
      fun u => if u = v then some x else apply_assignments value l u := by
  simp [apply_assignments, List.foldl_append]

theorem apply_assignments_of_filter_nil (value : rasqal_variable → Option rasqal_literal)
    (l : List (rasqal_variable × rasqal_literal)) (u : rasqal_variable)
    (h : l.filter (fun a => a.1 = u) = []) : apply_assignments value l u = value u := by
  induction l generalizing value with
  | nil => rfl
  | cons a l ih =>
    have hne : ¬ a.1 = u := by
      intro h1; simp [List.filter_cons, h1] at h
    have hl : l.filter (fun a => a.1 = u) = [] := by
      simpa [List.filter_cons, hne] using h
    have := ih (fun w => if w = a.1 then some a.2 else value w) hl
    simp only [apply_assignments, List.foldl_cons] at this ⊢
    rw [this]
    simp [Ne.symm hne]

theorem apply_assignments_of_filter_single (value : rasqal_variable → Option rasqal_literal)
    (l : List (rasqal_variable × rasqal_literal)) (v : rasqal_variable) (x : rasqal_literal)
    (h : l.filter (fun a => a.1 = v) = [(v, x)]) : apply_assignments value l v = some x := by
  induction l generalizing value with
  | nil => simp at h
  | cons a l ih =>
    by_cases ha : a.1 = v
    · have hl : l.filter (fun a => a.1 = v) = [] ∧ a = (v, x) := by
        simpa [List.filter_cons, ha, and_comm] using h
      have := apply_assignments_of_filter_nil (fun w => if w = a.1 then some a.2 else value w)
        l v hl.1
      simp only [apply_assignments, List.foldl_cons] at this ⊢
      rw [this, hl.2]
      simp
    · have hl : l.filter (fun a => a.1 = v) = [(v, x)] := by
        simpa [List.filter_cons, ha] using h
      have := ih (fun w => if w = a.1 then some a.2 else value w) hl
      simpa only [apply_assignments, List.foldl_cons] using this

/-- The variables after a call extend those before it: the log of assignments
grows by `l` and the values are those before with `l` applied. -/
theorem bind_match_extends (eq : librdf_node → librdf_node → Bool)
    (rtmc : rasqal_redland_triples_match_context)
    (bindings : Fin 3 → Option rasqal_variable) (σ : rasqal_variables) :
    ∃ l, (rasqal_redland_bind_match eq rtmc bindings σ).2.assigned = σ.assigned ++ l ∧
      (rasqal_redland_bind_match eq rtmc bindings σ).2.value = apply_assignments σ.value l := by
  have base : ∀ τ : rasqal_variables, τ = σ →
      ∃ l, τ.assigned = σ.assigned ++ l ∧ τ.value = apply_assignments σ.value l :=
    fun τ h => ⟨[], by simp [h], by simp [h, apply_assignments]⟩
  have step : ∀ (τ : rasqal_variables) (v : rasqal_variable) (x : rasqal_literal),
      (∃ l, τ.assigned = σ.assigned ++ l ∧ τ.value = apply_assignments σ.value l) →
      ∃ l, (rasqal_variable_set_value τ v x).assigned = σ.assigned ++ l ∧
        (rasqal_variable_set_value τ v x).value = apply_assignments σ.value l := by
    rintro τ v x ⟨l, h1, h2⟩
    refine ⟨l ++ [(v, x)], by simp [rasqal_variable_set_value, h1], ?_⟩
    rw [apply_assignments_append, ← h2]
    rfl
  unfold rasqal_redland_bind_match
  repeat' split
  all_goals first
    | exact base _ rfl
    | exact step _ _ _ (base _ rfl)
    | exact step _ _ _ (step _ _ _ (base _ rfl))
    | exact step _ _ _ (step _ _ _ (step _ _ _ (base _ rfl)))

theorem first_slot_assignments_filter_first (bindings : Fin 3 → Option rasqal_variable)
    (st : librdf_statement) (k : Nat) (i : Fin 3) (v : rasqal_variable)
    (hi : bindings i = some v) (hfirst : ∀ j : Fin 3, j < i → bindings j ≠ some v)
    (hk : i.val < k) :
    (first_slot_assignments bindings st k).filter (fun a => a.1 = v) =
      [(v, redland_node_to_rasqal_literal (st.part i))] := by
  rw [first_slot_assignments_eq]
  revert hfirst hi hk
  rcases h0 : bindings 0 with _ | a <;> rcases h1 : bindings 1 with _ | b <;>
    rcases h2 : bindings 2 with _ | c <;> fin_cases i <;>
    simp [h0, h1, h2, librdf_statement.part, Fin.forall_fin_succ, Fin.lt_def,
      List.filter_cons]
  all_goals
    intros
    subst_vars
    split_ifs <;> simp_all [List.filter_cons]
  all_goals first
    | (intro h; exact absurd h.symm (by tauto))
    | exact ⟨fun h => absurd h.symm (by tauto), fun h => absurd h.symm (by tauto)⟩

theorem first_slot_assignments_filter_absent (bindings : Fin 3 → Option rasqal_variable)
    (st : librdf_statement) (k : Nat) (u : rasqal_variable)
    (hu : ∀ i : Fin 3, i.val < k → bindings i ≠ some u) :
    (first_slot_assignments bindings st k).filter (fun a => a.1 = u) = [] := by
  rw [first_slot_assignments_eq]
  revert hu
  rcases h0 : bindings 0 with _ | a <;> rcases h1 : bindings 1 with _ | b <;>
    rcases h2 : bindings 2 with _ | c <;>
    simp [h0, h1, h2, Fin.forall_fin_succ, List.filter_cons]
  all_goals
    intros
    refine ⟨by assumption, ?_⟩
    first
      | (rintro _ _ hk _ rfl _; simp_all)
      | (refine ⟨?_, ?_⟩ <;> (intros; subst_vars; simp_all))

theorem bind_match_accepted_value (eq : librdf_node → librdf_node → Bool)
    (rtmc : rasqal_redland_triples_match_context) (st : librdf_statement)
    (hcur : rtmc.current = some st)
    (bindings : Fin 3 → Option rasqal_variable) (σ : rasqal_variables)
    (hacc : (rasqal_redland_bind_match eq rtmc bindings σ).1 = 0) :
    (rasqal_redland_bind_match eq rtmc bindings σ).2.value =
      apply_assignments σ.value (first_slot_assignments bindings st 3) := by
  obtain ⟨l, h1, h2⟩ := bind_match_extends eq rtmc bindings σ
  rw [bind_match_accepted_assigned eq rtmc st hcur bindings σ hacc] at h1
  rw [h2, ← List.append_cancel_left h1]

/-! ## Assignments of an accepted call -/

/-- C5: in an accepted call of `rasqal_redland_bind_match` the assignments made
are exactly those of the first slots: each variable occurring in the binding
slots is assigned once, the literal converted from the candidate's node at the
first slot (in the order subject, predicate, object) holding it, and holds that
value afterwards; a later slot holding the same variable assigns nothing, and a
variable in no slot is not assigned. -/
theorem bind_match_accepted_assigns_first_slot_once
    (eq : librdf_node → librdf_node → Bool)
    (rtmc : rasqal_redland_triples_match_context) (st : librdf_statement)
    (hcur : rtmc.current = some st)
    (bindings : Fin 3 → Option rasqal_variable) (σ : rasqal_variables)
    (hacc : (rasqal_redland_bind_match eq rtmc bindings σ).1 = 0) :
    (rasqal_redland_bind_match eq rtmc bindings σ).2.assigned =
      σ.assigned ++ first_slot_assignments bindings st 3 ∧
    (∀ (i : Fin 3) (v : rasqal_variable), bindings i = some v →
      (∀ j : Fin 3, j < i → bindings j ≠ some v) →
      (first_slot_assignments bindings st 3).filter (fun a => a.1 = v) =
        [(v, redland_node_to_rasqal_literal (st.part i))] ∧
      (rasqal_redland_bind_match eq rtmc bindings σ).2.value v =
        some (redland_node_to_rasqal_literal (st.part i))) ∧
    (∀ u : rasqal_variable, (∀ i : Fin 3, bindings i ≠ some u) →
      (first_slot_assignments bindings st 3).filter (fun a => a.1 = u) = [] ∧
      (rasqal_redland_bind_match eq rtmc bindings σ).2.value u = σ.value u) := by
  have hval := bind_match_accepted_value eq rtmc st hcur bindings σ hacc
  refine ⟨bind_match_accepted_assigned eq rtmc st hcur bindings σ hacc, ?_, ?_⟩
  · intro i v hi hfirst
    have hf := first_slot_assignments_filter_first bindings st 3 i v hi hfirst i.isLt
    exact ⟨hf, by rw [hval]; exact apply_assignments_of_filter_single _ _ _ _ hf⟩
  · intro u hu
    have hf := first_slot_assignments_filter_absent bindings st 3 u (fun i _ => hu i)
    exact ⟨hf, by rw [hval]; exact apply_assignments_of_filter_nil _ _ _ hf⟩

/-- Witness of C5: the pattern `(?x, ?y, ?x)` on the candidate `(A, P, A)`: accepted,
two assignments, `x = A` from the subject slot and `y = P`. -/
theorem bind_match_accepted_assigns_first_slot_once_witness :
    (rasqal_redland_bind_match librdf_node_equals (.over [⟨node_A, node_P, node_A⟩])
      (slots (some 0) (some 1) (some 0)) .unset).1 = 0 ∧
    (rasqal_redland_bind_match librdf_node_equals (.over [⟨node_A, node_P, node_A⟩])
      (slots (some 0) (some 1) (some 0)) .unset).2.assigned =
      rasqal_variables.unset.assigned ++
        first_slot_assignments (slots (some 0) (some 1) (some 0)) ⟨node_A, node_P, node_A⟩ 3 ∧
    first_slot_assignments (slots (some 0) (some 1) (some 0)) ⟨node_A, node_P, node_A⟩ 3 =
      [(0, redland_node_to_rasqal_literal node_A), (1, redland_node_to_rasqal_literal node_P)] :=
  ⟨by decide,
    (bind_match_accepted_assigns_first_slot_once librdf_node_equals
      (.over [⟨node_A, node_P, node_A⟩]) ⟨node_A, node_P, node_A⟩ rfl
      (slots (some 0) (some 1) (some 0)) .unset (by decide)).1,
    by decide⟩

theorem bind_match_accepts_or_rejects (eq : librdf_node → librdf_node → Bool)
    (rtmc : rasqal_redland_triples_match_context)
    (bindings : Fin 3 → Option rasqal_variable) (σ : rasqal_variables) :
    (rasqal_redland_bind_match eq rtmc bindings σ).1 = 0 ∨
      (rasqal_redland_bind_match eq rtmc bindings σ).1 = 1 := by
  unfold rasqal_redland_bind_match
  repeat' split
  all_goals simp

theorem bind_match_rejected_assigned (eq : librdf_node → librdf_node → Bool)
    (rtmc : rasqal_redland_triples_match_context) (st : librdf_statement)
    (hcur : rtmc.current = some st)
    (bindings : Fin 3 → Option rasqal_variable) (σ : rasqal_variables)
    (hrej : (rasqal_redland_bind_match eq rtmc bindings σ).1 ≠ 0) :
    ∃ k : Fin 3,
      (∃ i : Fin 3, i < k ∧ ∃ v, bindings i = some v ∧ bindings k = some v ∧
        eq (st.part i) (st.part k) = false) ∧
      (∀ j i : Fin 3, i < j → j < k → ∀ v, bindings i = some v → bindings j = some v →
        eq (st.part i) (st.part j) = true) ∧
      (rasqal_redland_bind_match eq rtmc bindings σ).2.assigned =
        σ.assigned ++ first_slot_assignments bindings st k := by
  by_cases h01 : ∃ v, bindings 0 = some v ∧ bindings 1 = some v ∧
      eq st.subject st.predicate = false
  · obtain ⟨v, hv0, hv1, hsp⟩ := h01
    refine ⟨1, ⟨0, by decide, v, hv0, hv1, hsp⟩, ?_, ?_⟩
    · intro j i hij hj
      exact absurd (lt_of_le_of_lt (Fin.zero_le i) hij) (by omega)
    · simp [first_slot_assignments_eq, rasqal_redland_bind_match, hcur, hv0, hv1, hsp,
        assigned_set_value]
      cases bindings 2 <;> rfl
  · refine ⟨2, ?_⟩
    revert hrej h01
    simp only [first_slot_assignments_eq, Fin.forall_fin_succ, Fin.exists_fin_succ,
      Fin.forall_fin_zero_pi, Fin.exists_fin_zero_pi]
    rcases h0 : bindings 0 with _ | a <;> rcases h1 : bindings 1 with _ | b <;>
      rcases h2 : bindings 2 with _ | c <;>
      simp [rasqal_redland_bind_match, hcur, h0, h1, h2, librdf_statement.part,
        assigned_set_value, Fin.lt_def]
    all_goals (split_ifs <;> simp_all [assigned_set_value])

/-! ## Rejection -/

/-- C6: when `rasqal_redland_bind_match` rejects a candidate it returns 1 at the
first inconsistent slot `k` (a slot holding the variable of an earlier slot whose
candidate node differs, every earlier slot being consistent): the assignments made
are exactly those of the first slots before `k`, whose variables hold the values
converted from this candidate, and a variable held by no slot before `k` is left
as it was; nothing is rolled back. -/
theorem bind_match_rejection_keeps_earlier_slots (eq : librdf_node → librdf_node → Bool)
    (rtmc : rasqal_redland_triples_match_context) (st : librdf_statement)
    (hcur : rtmc.current = some st)
    (bindings : Fin 3 → Option rasqal_variable) (σ : rasqal_variables)
    (hrej : (rasqal_redland_bind_match eq rtmc bindings σ).1 ≠ 0) :
    (rasqal_redland_bind_match eq rtmc bindings σ).1 = 1 ∧
    ∃ k : Fin 3,
      (∃ i : Fin 3, i < k ∧ ∃ v, bindings i = some v ∧ bindings k = some v ∧
        eq (st.part i) (st.part k) = false) ∧
      (∀ j i : Fin 3, i < j → j < k → ∀ v, bindings i = some v → bindings j = some v →
        eq (st.part i) (st.part j) = true) ∧
      (rasqal_redland_bind_match eq rtmc bindings σ).2.assigned =
        σ.assigned ++ first_slot_assignments bindings st k ∧
      (∀ (i : Fin 3) (v : rasqal_variable), i < k → bindings i = some v →
        (∀ j : Fin 3, j < i → bindings j ≠ some v) →
        (rasqal_redland_bind_match eq rtmc bindings σ).2.value v =
          some (redland_node_to_rasqal_literal (st.part i))) ∧
      (∀ u : rasqal_variable, (∀ i : Fin 3, i < k → bindings i ≠ some u) →
        (rasqal_redland_bind_match eq rtmc bindings σ).2.value u = σ.value u) := by
  obtain ⟨k, hk1, hk2, hk3⟩ := bind_match_rejected_assigned eq rtmc st hcur bindings σ hrej
  obtain ⟨l, h1, h2⟩ := bind_match_extends eq rtmc bindings σ
  rw [hk3] at h1
  have hval : (rasqal_redland_bind_match eq rtmc bindings σ).2.value =
      apply_assignments σ.value (first_slot_assignments bindings st k) := by
    rw [h2, ← List.append_cancel_left h1]
  refine ⟨?_, k, hk1, hk2, hk3, ?_, ?_⟩
  · rcases (bind_match_accepts_or_rejects eq rtmc bindings σ) with h | h
    · exact absurd h hrej
    · exact h
  · intro i v hik hi hfirst
    rw [hval]
    exact apply_assignments_of_filter_single _ _ _ _
      (first_slot_assignments_filter_first bindings st k i v hi hfirst hik)
  · intro u hu
    rw [hval]
    exact apply_assignments_of_filter_nil _ _ _
      (first_slot_assignments_filter_absent bindings st k u (fun i hi => hu i hi))

/-- Witness of C6: the slots `[x, x, y]` on the candidate `(A, P, B)`, whose subject
differs from its predicate: rejected, `x` is assigned the subject and `y` is left
without a value. -/
theorem bind_match_rejection_keeps_earlier_slots_witness :
    ((rasqal_redland_bind_match librdf_node_equals (.over [⟨node_A, node_P, node_B⟩])
        (slots (some 0) (some 0) (some 1)) .unset).1 = 1 ∧
      (rasqal_redland_bind_match librdf_node_equals (.over [⟨node_A, node_P, node_B⟩])
        (slots (some 0) (some 0) (some 1)) .unset).2.assigned =
        [(0, redland_node_to_rasqal_literal node_A)]) ∧
    (rasqal_redland_bind_match librdf_node_equals (.over [⟨node_A, node_P, node_B⟩])
        (slots (some 0) (some 0) (some 1)) .unset).2.value 0 =
      some (redland_node_to_rasqal_literal node_A) ∧
    (rasqal_redland_bind_match librdf_node_equals (.over [⟨node_A, node_P, node_B⟩])
        (slots (some 0) (some 0) (some 1)) .unset).2.value 1 = none :=
  ⟨⟨(bind_match_rejection_keeps_earlier_slots librdf_node_equals
      (.over [⟨node_A, node_P, node_B⟩]) ⟨node_A, node_P, node_B⟩ rfl
      (slots (some 0) (some 0) (some 1)) .unset (by decide)).1, by decide⟩,
    by decide, by decide⟩

/-! ## No current candidate -/

/-- C7, counterexample: on a context whose stream has no current statement
`rasqal_redland_bind_match` returns the same value, 1, as it returns for the
consistency rejection of the candidate `(A, P, B)` by the pattern `(?x, P, ?x)`:
the two outcomes are not distinguishable. -/
theorem bind_match_no_candidate_same_as_rejected :
    (rasqal_redland_bind_match librdf_node_equals (.over [])
        (slots (some 0) none (some 0)) .unset).1 = 1 ∧
    (rasqal_redland_bind_match librdf_node_equals (.over [⟨node_A, node_P, node_B⟩])
        (slots (some 0) none (some 0)) .unset).1 = 1 ∧
    (rasqal_redland_bind_match librdf_node_equals (.over [])
        (slots (some 0) none (some 0)) .unset).1 =
      (rasqal_redland_bind_match librdf_node_equals (.over [⟨node_A, node_P, node_B⟩])
        (slots (some 0) none (some 0)) .unset).1 := by
  decide

/-- C7, amended: when the stream yields no current statement,
`rasqal_redland_bind_match` returns 1 and leaves the variables as they were, no
assignment being made; 1 is also the value of every consistency rejection, for
any context, slots and variables. -/
theorem bind_match_no_candidate (eq : librdf_node → librdf_node → Bool)
    (rtmc : rasqal_redland_triples_match_context) (hcur : rtmc.current = none)
    (bindings : Fin 3 → Option rasqal_variable) (σ : rasqal_variables) :
    rasqal_redland_bind_match eq rtmc bindings σ = (1, σ) ∧
    ∀ (rtmc' : rasqal_redland_triples_match_context)
      (bindings' : Fin 3 → Option rasqal_variable) (σ' : rasqal_variables),
      (rasqal_redland_bind_match eq rtmc' bindings' σ').1 ≠ 0 →
      (rasqal_redland_bind_match eq rtmc' bindings' σ').1 =
        (rasqal_redland_bind_match eq rtmc bindings σ).1 := by
  have h : rasqal_redland_bind_match eq rtmc bindings σ = (1, σ) := by
    simp [rasqal_redland_bind_match, hcur]
  refine ⟨h, ?_⟩
  intro rtmc' bindings' σ' hrej
  rw [h]
  rcases bind_match_accepts_or_rejects eq rtmc' bindings' σ' with h' | h'
  · exact absurd h' hrej
  · exact h'

/-- Witness of C7 (amended): an exhausted stream. -/
theorem bind_match_no_candidate_witness :
    (rasqal_redland_bind_match librdf_node_equals (.over [])
        (slots (some 0) none (some 0)) .unset).1 = 1 ∧
    (rasqal_redland_bind_match librdf_node_equals (.over [])
        (slots (some 0) none (some 0)) .unset).2.assigned = [] :=
  have h := (bind_match_no_candidate librdf_node_equals (.over []) rfl
    (slots (some 0) none (some 0)) .unset).1
  ⟨by rw [h], by rw [h]; rfl⟩

/-! ## The triples source -/

theorem new_triples_match_tail (rtsc : rasqal_redland_triples_source_user_data)
    (e0 e1 e2 : Except Fault (Option librdf_node)) (b : Fin 3 → Option rasqal_variable) :
    (do
      let y ← e0
      let y_1 ← e1
      let y_2 ← e2
      match librdf_new_statement_from_nodes rtsc.world (slots y y_1 y_2 0) (slots y y_1 y_2 1)
          (slots y y_1 y_2 2) with
        | none => pure ((⟨b⟩ : rasqal_triple_meta), none)
        | some qstatement =>
          pure (⟨b⟩, some { nodes := slots y y_1 y_2, qstatement := some qstatement,
                            stream := rtsc.model.find_statements qstatement }) :
      Except Fault (rasqal_triple_meta × Option rasqal_redland_triples_match_context)) =
    e0.bind fun n0 => e1.bind fun n1 => e2.bind fun n2 =>
      Except.ok ((⟨b⟩ : rasqal_triple_meta),
        if rtsc.world.out_of_memory then none
        else some ({ nodes := slots n0 n1 n2, qstatement := some ⟨n0, n1, n2⟩,
                     stream := rtsc.model.find_statements ⟨n0, n1, n2⟩ } :
          rasqal_redland_triples_match_context)) := by
  cases e0 <;> cases e1 <;> cases e2 <;>
    simp [bind, Except.bind, pure, Except.pure, librdf_new_statement_from_nodes, slots]
  split <;> simp_all

theorem new_triples_match_eq (rtsc : rasqal_redland_triples_source_user_data)
    (σ : rasqal_variables) (m : rasqal_triple_meta) (t : rasqal_triple) :
    rasqal_redland_new_triples_match rtsc σ m t =
      (query_node σ t.subject).bind fun n0 =>
      (query_node σ t.predicate).bind fun n1 =>
      (query_node σ t.object).bind fun n2 =>
        .ok (⟨fun i => rasqal_literal_as_variable (t.part i)⟩,
          if rtsc.world.out_of_memory then none
          else some { nodes := slots n0 n1 n2, qstatement := some ⟨n0, n1, n2⟩,
                      stream := rtsc.model.find_statements ⟨n0, n1, n2⟩ }) := by
  have hb : ∀ v0 v1 v2 : Option rasqal_variable,
      array3_set (array3_set (array3_set m.bindings 0 v0) 1 v1) 2 v2 = slots v0 v1 v2 := by
    intro v0 v1 v2; funext i; fin_cases i <;> rfl
  have hn : ∀ n0 n1 n2 : Option librdf_node,
      array3_set (array3_set (array3_set (fun _ => none) 0 n0) 1 n1) 2 n2 =
        slots n0 n1 n2 := by
    intro n0 n1 n2; funext i; fin_cases i <;> rfl
  have hp : (fun i => rasqal_literal_as_variable (t.part i)) =
      slots (rasqal_literal_as_variable t.subject) (rasqal_literal_as_variable t.predicate)
        (rasqal_literal_as_variable t.object) := by
    funext i; fin_cases i <;> rfl
  unfold rasqal_redland_new_triples_match
  simp only [hb, hn, hp]
  unfold query_node
  rcases rasqal_literal_as_variable t.subject with _ | v0 <;>
    rcases rasqal_literal_as_variable t.predicate with _ | v1 <;>
    rcases rasqal_literal_as_variable t.object with _ | v2 <;>
    simp only []
  all_goals (try rcases σ.value v0 with _ | x0 <;> simp only [])
  all_goals (try rcases σ.value v1 with _ | x1 <;> simp only [])
  all_goals (try rcases σ.value v2 with _ | x2 <;> simp only [])
  all_goals exact new_triples_match_tail rtsc _ _ _ _

theorem query_statement_part_eq (q : librdf_query_statement) :
    q.part = slots q.subject q.predicate q.object := by
  funext i; fin_cases i <;> rfl

theorem query_node_cases (σ : rasqal_variables) (l : rasqal_literal) (n : Option librdf_node) :
    query_node σ l = .ok n ↔
      (rasqal_literal_as_variable l = none → rasqal_literal_to_redland_node (some l) = .ok n) ∧
      (∀ v value, rasqal_literal_as_variable l = some v → σ.value v = some value →
        rasqal_literal_to_redland_node (some value) = .ok n) ∧
      (∀ v, rasqal_literal_as_variable l = some v → σ.value v = none → n = none) := by
  unfold query_node
  rcases h : rasqal_literal_as_variable l with _ | v
  · simp
  · rcases hv : σ.value v with _ | value
    · simp only [hv]
      constructor
      · intro hn
        have hn' : n = none := by cases hn; rfl
        refine ⟨fun h' => by simp at h', fun v' value' h1 h2 => ?_, fun _ _ _ => hn'⟩
        have : v' = v := by cases h1; rfl
        rw [this, hv] at h2
        simp at h2
      · rintro ⟨_, _, h3⟩
        rw [h3 v rfl hv]
    · simp only [hv]
      constructor
      · intro hn
        refine ⟨fun h' => by simp at h', fun v' value' h1 h2 => ?_, fun v' h1 h2 => ?_⟩
        · have : v' = v := by cases h1; rfl
          rw [this, hv] at h2
          cases h2
          exact hn
        · have : v' = v := by cases h1; rfl
          rw [this, hv] at h2
          simp at h2
      · rintro ⟨_, h2, _⟩
        exact h2 v value rfl hv

theorem new_triples_match_ok_iff (rtsc : rasqal_redland_triples_source_user_data)
    (σ : rasqal_variables) (m : rasqal_triple_meta) (t : rasqal_triple)
    (m' : rasqal_triple_meta) (r : Option rasqal_redland_triples_match_context) :
    rasqal_redland_new_triples_match rtsc σ m t = .ok (m', r) ↔
      m' = ⟨fun i => rasqal_literal_as_variable (t.part i)⟩ ∧
      ∃ q : librdf_query_statement,
        (∀ i : Fin 3, query_node σ (t.part i) = .ok (q.part i)) ∧
        r = if rtsc.world.out_of_memory then none
            else some { nodes := q.part, qstatement := some q,
                        stream := rtsc.model.find_statements q } := by
  have p0 : t.part 0 = t.subject := rfl
  have p1 : t.part 1 = t.predicate := rfl
  have p2 : t.part 2 = t.object := rfl
  have hq : ∀ q : librdf_query_statement,
      q.part 0 = q.subject ∧ q.part 1 = q.predicate ∧ q.part 2 = q.object :=
    fun _ => ⟨rfl, rfl, rfl⟩
  rw [new_triples_match_eq]
  simp only [Fin.forall_fin_succ, Fin.forall_fin_zero_pi, Fin.succ_zero_eq_one,
    Fin.succ_one_eq_two, p0, p1, p2, hq, and_true]
  cases h0 : query_node σ t.subject <;> cases h1 : query_node σ t.predicate <;>
    cases h2 : query_node σ t.object <;>
    simp [Except.bind]
  rename_i n0 n1 n2
  constructor
  · rintro ⟨rfl, rfl⟩
    exact ⟨rfl, ⟨n0, n1, n2⟩, ⟨rfl, rfl, rfl⟩, by rw [query_statement_part_eq]⟩
  · rintro ⟨rfl, q, ⟨rfl, rfl, rfl⟩, rfl⟩
    exact ⟨rfl, by rw [query_statement_part_eq]⟩

theorem bind_match_code_independent_of_values (eq : librdf_node → librdf_node → Bool)
    (rtmc : rasqal_redland_triples_match_context)
    (bindings : Fin 3 → Option rasqal_variable) (σ σ₂ : rasqal_variables) :
    (rasqal_redland_bind_match eq rtmc bindings σ₂).1 =
      (rasqal_redland_bind_match eq rtmc bindings σ).1 := by
  rcases hcur : rtmc.current with _ | st
  · simp [rasqal_redland_bind_match, hcur]
  · rcases h0 : bindings 0 with _ | a <;> rcases h1 : bindings 1 with _ | b <;>
      rcases h2 : bindings 2 with _ | c <;>
      simp [rasqal_redland_bind_match, hcur, h0, h1, h2] <;>
      split_ifs <;> simp_all

/-! ## Variables that hold a value when the match is created -/

/-- C8, counterexample: `x` holds `A` when the match for `(?x, P, ?o)` is created
over a store whose lookup is approximate and delivers the candidate `(B, P, B)`;
bind on that candidate returns 0 (accepted) and `x` then holds `B`. -/
theorem bind_match_accepts_candidate_differing_from_prior_value :
    (bind_first_candidate librdf_node_equals source_approximate_B_P_B x_holds_A
        pattern_x_P_o).map (fun r => (r.1, r.2.value 0)) =
      some (0, some (redland_node_to_rasqal_literal node_B)) := by
  decide

/-- C8, amended: for a pattern slot whose variable already holds a value when the
match is created, that value is only converted into the query statement given to
the store; bind does not verify it: the return code of bind is the same whatever
values the variables hold, and an accepted candidate overwrites the variable with
the literal converted from the candidate's node at the variable's first slot. -/
theorem bind_match_does_not_verify_prior_value (eq : librdf_node → librdf_node → Bool)
    (rtsc : rasqal_redland_triples_source_user_data) (σ : rasqal_variables)
    (m m' : rasqal_triple_meta) (t : rasqal_triple)
    (rtmc : rasqal_redland_triples_match_context)
    (hnew : rasqal_redland_new_triples_match rtsc σ m t = .ok (m', some rtmc))
    (st : librdf_statement) (hcur : rtmc.current = some st)
    (i : Fin 3) (v : rasqal_variable) (value : rasqal_literal)
    (hslot : rasqal_literal_as_variable (t.part i) = some v)
    (hvalue : σ.value v = some value) :
    (∃ q, rtmc.qstatement = some q ∧ rtmc.stream = rtsc.model.find_statements q ∧
      rasqal_literal_to_redland_node (some value) = .ok (q.part i)) ∧
    (∀ σ₂ : rasqal_variables,
      (rasqal_redland_bind_match eq rtmc m'.bindings σ₂).1 =
        (rasqal_redland_bind_match eq rtmc m'.bindings σ).1) ∧
    ((rasqal_redland_bind_match eq rtmc m'.bindings σ).1 = 0 →
      (∀ j : Fin 3, j < i → rasqal_literal_as_variable (t.part j) ≠ some v) →
      (rasqal_redland_bind_match eq rtmc m'.bindings σ).2.value v =
        some (redland_node_to_rasqal_literal (st.part i))) := by
  obtain ⟨rfl, q, hq, hr⟩ := (new_triples_match_ok_iff rtsc σ m t m' (some rtmc)).1 hnew
  have hr' : rtmc = ⟨q.part, some q, rtsc.model.find_statements q⟩ := by
    by_cases hoom : rtsc.world.out_of_memory = true
    · simp [hoom] at hr
    · simpa [hoom] using hr
  refine ⟨⟨q, by rw [hr'], by rw [hr'], ?_⟩, ?_, ?_⟩
  · exact ((query_node_cases σ (t.part i) (q.part i)).1 (hq i)).2.1 v value hslot hvalue
  · intro σ₂
    exact bind_match_code_independent_of_values eq rtmc _ σ σ₂
  · intro hacc hfirst
    have h := bind_match_accepted_value eq rtmc st hcur _ σ hacc
    rw [h]
    exact apply_assignments_of_filter_single _ _ _ _
      (first_slot_assignments_filter_first _ st 3 i v hslot hfirst i.isLt)

theorem new_triples_match_approximate_example :
    rasqal_redland_new_triples_match source_approximate_B_P_B x_holds_A ⟨fun _ => none⟩
        pattern_x_P_o =
      .ok (⟨fun i => rasqal_literal_as_variable (pattern_x_P_o.part i)⟩,
        some ⟨query_A_P_any.part, some query_A_P_any, some ⟨[⟨node_B, node_P, node_B⟩]⟩⟩) :=
  (new_triples_match_ok_iff _ _ _ _ _ _).2
    ⟨rfl, query_A_P_any, by intro i; fin_cases i <;> rfl, rfl⟩

/-- Witness of C8 (amended): `x` holds `A`, the approximate store delivers
`(B, P, B)` for the pattern `(?x, P, ?o)`; the query statement is `(A, P, wildcard)`
and bind accepts the candidate, leaving `x = B`. -/
theorem bind_match_does_not_verify_prior_value_witness :
    (∃ q, (some query_A_P_any) = some q ∧
      some (⟨[⟨node_B, node_P, node_B⟩]⟩ : librdf_stream) =
        source_approximate_B_P_B.model.find_statements q ∧
      rasqal_literal_to_redland_node (some (redland_node_to_rasqal_literal node_A)) =
        .ok (q.part 0)) ∧
    (rasqal_redland_bind_match librdf_node_equals
        ⟨query_A_P_any.part, some query_A_P_any, some ⟨[⟨node_B, node_P, node_B⟩]⟩⟩
        (fun i => rasqal_literal_as_variable (pattern_x_P_o.part i)) x_holds_A).2.value 0 =
      some (redland_node_to_rasqal_literal node_B) :=
  have h := bind_match_does_not_verify_prior_value librdf_node_equals
    source_approximate_B_P_B x_holds_A ⟨fun _ => none⟩ _ pattern_x_P_o _
    new_triples_match_approximate_example ⟨node_B, node_P, node_B⟩ rfl 0 0
    (redland_node_to_rasqal_literal node_A) rfl rfl
  ⟨h.1, h.2.2 (by decide) (by decide)⟩

/-! ## The query statement and the recorded bindings -/

/-- C9: `rasqal_redland_new_triples_match` returns a match exactly when the
statement allocation succeeds and no conversion aborts, and the query statement
it then passes to `librdf_model_find_statements` has at each of the three
positions: the node converted from the constant when the slot is a constant, the
node converted from the variable's value when the slot is a variable holding a
value, and no node (the wildcard) when the slot is a variable without a value. -/
theorem new_triples_match_query_statement (rtsc : rasqal_redland_triples_source_user_data)
    (σ : rasqal_variables) (m m' : rasqal_triple_meta) (t : rasqal_triple)
    (rtmc : rasqal_redland_triples_match_context) :
    rasqal_redland_new_triples_match rtsc σ m t = .ok (m', some rtmc) ↔
      rtsc.world.out_of_memory = false ∧
      m' = ⟨fun i => rasqal_literal_as_variable (t.part i)⟩ ∧
      ∃ q : librdf_query_statement,
        rtmc = ⟨q.part, some q, rtsc.model.find_statements q⟩ ∧
        ∀ i : Fin 3,
          (rasqal_literal_as_variable (t.part i) = none →
            rasqal_literal_to_redland_node (some (t.part i)) = .ok (q.part i)) ∧
          (∀ v value, rasqal_literal_as_variable (t.part i) = some v →
            σ.value v = some value →
            rasqal_literal_to_redland_node (some value) = .ok (q.part i)) ∧
          (∀ v, rasqal_literal_as_variable (t.part i) = some v → σ.value v = none →
            q.part i = none) := by
  rw [new_triples_match_ok_iff]
  constructor
  · rintro ⟨hm, q, hq, hr⟩
    by_cases hoom : rtsc.world.out_of_memory = true
    · simp [hoom] at hr
    · refine ⟨by simpa using hoom, hm, q, by simpa [hoom] using hr, fun i => ?_⟩
      exact (query_node_cases σ (t.part i) (q.part i)).1 (hq i)
  · rintro ⟨hoom, hm, q, hr, hq⟩
    exact ⟨hm, q, fun i => (query_node_cases σ (t.part i) (q.part i)).2 (hq i),
      by simp [hoom, hr]⟩

/-- Witness of C9: with `x` holding `A`, the pattern `(?x, P, ?o)` gives the
query statement `(A, P, wildcard)`, passed to the store's lookup. -/
theorem new_triples_match_query_statement_witness :
    rasqal_redland_new_triples_match source_exact x_holds_A ⟨fun _ => none⟩ pattern_x_P_o =
      .ok (⟨fun i => rasqal_literal_as_variable (pattern_x_P_o.part i)⟩,
        some ⟨query_A_P_any.part, some query_A_P_any,
          source_exact.model.find_statements query_A_P_any⟩) :=
  (new_triples_match_query_statement source_exact x_holds_A ⟨fun _ => none⟩ _ pattern_x_P_o
    _).2 ⟨rfl, rfl, query_A_P_any, rfl, fun i =>
      (query_node_cases x_holds_A (pattern_x_P_o.part i) (query_A_P_any.part i)).1
        (by fin_cases i <;> rfl)⟩

/-- C10: whenever `rasqal_redland_new_triples_match` returns, with or without a
match, the bindings it has recorded hold at each of the three positions the
variable of that pattern slot, and `NULL` when the slot is a constant, whatever
value the variable holds; two slots with the same variable get the same
identity. It returns exactly when no conversion of a slot aborts. -/
theorem new_triples_match_bindings (rtsc : rasqal_redland_triples_source_user_data)
    (σ : rasqal_variables) (m : rasqal_triple_meta) (t : rasqal_triple) :
    (∀ (m' : rasqal_triple_meta) (r : Option rasqal_redland_triples_match_context),
      rasqal_redland_new_triples_match rtsc σ m t = .ok (m', r) →
      (∀ i : Fin 3, m'.bindings i = rasqal_literal_as_variable (t.part i)) ∧
      (∀ i j : Fin 3, ∀ v, rasqal_literal_as_variable (t.part i) = some v →
        rasqal_literal_as_variable (t.part j) = some v →
        m'.bindings i = some v ∧ m'.bindings j = m'.bindings i)) ∧
    ((∃ m' r, rasqal_redland_new_triples_match rtsc σ m t = .ok (m', r)) ↔
      ∀ i : Fin 3, query_node σ (t.part i) ≠ .error .abort) := by
  constructor
  · intro m' r h
    obtain ⟨rfl, -⟩ := (new_triples_match_ok_iff rtsc σ m t m' r).1 h
    refine ⟨fun i => rfl, fun i j v hi hj => ?_⟩
    simp only [hi, hj, and_self]
  · constructor
    · rintro ⟨m', r, h⟩ i
      obtain ⟨-, q, hq, -⟩ := (new_triples_match_ok_iff rtsc σ m t m' r).1 h
      rw [hq i]
      simp
    · intro h
      have hok : ∀ i : Fin 3, ∃ n, query_node σ (t.part i) = .ok n := by
        intro i
        cases hq : query_node σ (t.part i) with
        | error e => cases e; exact absurd hq (h i)
        | ok n => exact ⟨n, rfl⟩
      obtain ⟨n0, h0⟩ := hok 0
      obtain ⟨n1, h1⟩ := hok 1
      obtain ⟨n2, h2⟩ := hok 2
      refine ⟨_, _, (new_triples_match_ok_iff rtsc σ m t _ _).2
        ⟨rfl, ⟨n0, n1, n2⟩, fun i => ?_, rfl⟩⟩
      fin_cases i
      · exact h0
      · exact h1
      · exact h2

/-- Witness of C10: the pattern `(?x, P, ?o)` with `x` holding a value: the
bindings recorded are `[x, NULL, o]`. -/
theorem new_triples_match_bindings_witness :
    ∃ m' r, rasqal_redland_new_triples_match source_exact x_holds_A ⟨fun _ => none⟩
        pattern_x_P_o = .ok (m', r) ∧
      m'.bindings 0 = some 0 ∧ m'.bindings 1 = none ∧ m'.bindings 2 = some 1 :=
  have h := new_triples_match_bindings source_exact x_holds_A ⟨fun _ => none⟩ pattern_x_P_o
  match h.2.2 (fun i hi => by fin_cases i <;> cases hi) with
  | ⟨m', r, hr⟩ => ⟨m', r, hr, (h.1 m' r hr).1 0, (h.1 m' r hr).1 1, (h.1 m' r hr).1 2⟩

/-! ## The existence test -/

theorem to_redland_node_of_recognised (l : rasqal_literal) (h : l.type.recognised = true) :
    ∃ n, rasqal_literal_to_redland_node (some l) = .ok n := by
  unfold rasqal_literal_to_redland_node
  cases ht : l.type <;> simp_all [rasqal_literal_type.recognised]

theorem is_match_complete (st : librdf_statement) (a b c : librdf_node) :
    st.is_match ⟨some a, some b, some c⟩ = true ↔ st = ⟨a, b, c⟩ := by
  cases st
  simp [librdf_statement.is_match, librdf_node_equals, and_assoc]

/-- C11: for a pattern whose three literals are of recognised kinds,
`rasqal_redland_triple_present` returns `librdf_model_contains_statement` of the
statement built from the three converted nodes; the result does not depend on
`librdf_model_find_statements`, which is not called; and over a store with an
exact lookup, the statement allocation succeeding, the result is non-zero
exactly when the triple of the three converted nodes is in the store. -/
theorem triple_present_is_contains_statement
    (rtsc : rasqal_redland_triples_source_user_data) (t : rasqal_triple)
    (hkind : ∀ i : Fin 3, (t.part i).type.recognised = true) :
    ∃ n : Fin 3 → Option librdf_node,
      (∀ i : Fin 3, rasqal_literal_to_redland_node (some (t.part i)) = .ok (n i)) ∧
      rasqal_redland_triple_present rtsc t =
        .ok (rtsc.model.contains_statement
          (librdf_new_statement_from_nodes rtsc.world (n 0) (n 1) (n 2))) ∧
      (∀ find : librdf_query_statement → Option librdf_stream,
        rasqal_redland_triple_present
            ⟨rtsc.world, ⟨find, rtsc.model.contains_statement⟩⟩ t =
          rasqal_redland_triple_present rtsc t) ∧
      (∀ (statements : List librdf_statement) (a b c : librdf_node),
        rtsc.world.out_of_memory = false → rtsc.model = .exact statements →
        n 0 = some a → n 1 = some b → n 2 = some c →
        ∃ rc : Int, rasqal_redland_triple_present rtsc t = .ok rc ∧
          (rc ≠ 0 ↔ (⟨a, b, c⟩ : librdf_statement) ∈ statements)) := by
  obtain ⟨n0, h0⟩ := to_redland_node_of_recognised _ (hkind 0)
  obtain ⟨n1, h1⟩ := to_redland_node_of_recognised _ (hkind 1)
  obtain ⟨n2, h2⟩ := to_redland_node_of_recognised _ (hkind 2)
  have p0 : t.part 0 = t.subject := rfl
  have p1 : t.part 1 = t.predicate := rfl
  have p2 : t.part 2 = t.object := rfl
  rw [p0] at h0; rw [p1] at h1; rw [p2] at h2
  have hres : ∀ r : rasqal_redland_triples_source_user_data,
      rasqal_redland_triple_present r t =
        .ok (r.model.contains_statement (librdf_new_statement_from_nodes r.world n0 n1 n2)) := by
    intro r
    simp [rasqal_redland_triple_present, h0, h1, h2, bind, Except.bind, pure, Except.pure]
  refine ⟨slots n0 n1 n2, ?_, hres rtsc, fun find => ?_, ?_⟩
  · intro i; fin_cases i
    · exact h0
    · exact h1
    · exact h2
  · rw [hres, hres]
  · intro statements a b c hoom hmodel ha hb hc
    refine ⟨_, hres rtsc, ?_⟩
    have ha' : n0 = some a := ha
    have hb' : n1 = some b := hb
    have hc' : n2 = some c := hc
    subst ha' hb' hc'
    simp only [hmodel, librdf_model.exact, librdf_new_statement_from_nodes, hoom]
    simp only [Bool.false_eq_true, if_false]
    by_cases hin : (statements.any fun st => st.is_match ⟨some a, some b, some c⟩) = true
    · simp only [hin, if_true]
      obtain ⟨st, hst, hm⟩ := List.any_eq_true.1 hin
      rw [is_match_complete] at hm
      subst hm
      simp [hst]
    · simp only [hin, if_false]
      have : ¬ (⟨a, b, c⟩ : librdf_statement) ∈ statements := by
        intro hmem
        apply hin
        exact List.any_eq_true.2 ⟨_, hmem, (is_match_complete _ a b c).2 rfl⟩
      simp [this]

/-- Witness of C11: the pattern `(A, P, A)` over the exact store holding
`(A, P, A)` and `(B, P, B)` is present, `(A, P, B)` is not. -/
theorem triple_present_is_contains_statement_witness :
    rasqal_redland_triple_present source_exact
        ⟨redland_node_to_rasqal_literal node_A, redland_node_to_rasqal_literal node_P,
          redland_node_to_rasqal_literal node_A⟩ = .ok 1 ∧
    rasqal_redland_triple_present source_exact
        ⟨redland_node_to_rasqal_literal node_A, redland_node_to_rasqal_literal node_P,
          redland_node_to_rasqal_literal node_B⟩ = .ok 0 ∧
    ∃ n : Fin 3 → Option librdf_node,
      rasqal_redland_triple_present source_exact
        ⟨redland_node_to_rasqal_literal node_A, redland_node_to_rasqal_literal node_P,
          redland_node_to_rasqal_literal node_A⟩ =
        .ok (source_exact.model.contains_statement
          (librdf_new_statement_from_nodes source_exact.world (n 0) (n 1) (n 2))) :=
  ⟨rfl, rfl,
    match triple_present_is_contains_statement source_exact
        ⟨redland_node_to_rasqal_literal node_A, redland_node_to_rasqal_literal node_P,
          redland_node_to_rasqal_literal node_A⟩ (by decide) with
    | ⟨n, _, h, _⟩ => ⟨n, h⟩⟩

/-! ## Node conversion -/

theorem to_redland_node_of_node (n : librdf_node) :
    rasqal_literal_to_redland_node (some (redland_node_to_rasqal_literal n)) = .ok (some n) := by
  cases n <;> rfl

/-- C12: round trip. For every node `n`, resource, literal with or without
language tag and datatype, or blank, converting `n` to a query literal and back
gives `n` again: the same kind with the same URI, lexical value, language tag,
datatype and blank identifier. Hence for every literal `L` of a recognised kind
that carries its content, `toStoreNode (toQueryLiteral (toStoreNode L))` is
`toStoreNode L`, which is a node. -/
theorem node_literal_round_trip :
    (∀ n : librdf_node,
      rasqal_literal_to_redland_node (some (redland_node_to_rasqal_literal n)) =
        .ok (some n)) ∧
    (∀ L : rasqal_literal, L.type.recognised = true → L.has_content = true →
      ∃ n : librdf_node, rasqal_literal_to_redland_node (some L) = .ok (some n) ∧
        rasqal_literal_to_redland_node (some (redland_node_to_rasqal_literal n)) =
          rasqal_literal_to_redland_node (some L)) := by
  refine ⟨to_redland_node_of_node, ?_⟩
  intro L hk hc
  have key : ∃ n : librdf_node, rasqal_literal_to_redland_node (some L) = .ok (some n) := by
    unfold rasqal_literal.has_content at hc
    by_cases hu : L.type = .URI
    · simp only [hu, if_true, Option.isSome_iff_exists] at hc
      obtain ⟨x, hx⟩ := hc
      exact ⟨.resource x, by simp [rasqal_literal_to_redland_node, hu, hx]⟩
    · simp only [hu, if_false, Option.isSome_iff_exists] at hc
      obtain ⟨x, hx⟩ := hc
      cases ht : L.type <;>
        simp_all [rasqal_literal_to_redland_node, rasqal_literal_type.recognised]
  obtain ⟨n, hn⟩ := key
  exact ⟨n, hn, by rw [hn]; exact to_redland_node_of_node n⟩

/-- Witness of C12: the four literals of the spec's round-trip law. -/
theorem node_literal_round_trip_witness :
    (rasqal_literal_to_redland_node (some (redland_node_to_rasqal_literal
        (.resource "http://example/"))) = .ok (some (.resource "http://example/"))) ∧
    (rasqal_literal_to_redland_node (some (redland_node_to_rasqal_literal
        (.literal "hi" (some "en") none))) = .ok (some (.literal "hi" (some "en") none))) ∧
    (rasqal_literal_to_redland_node (some (redland_node_to_rasqal_literal
        (.literal "5" none (some "http://www.w3.org/2001/XMLSchema#integer")))) =
      .ok (some (.literal "5" none (some "http://www.w3.org/2001/XMLSchema#integer")))) ∧
    (rasqal_literal_to_redland_node (some (redland_node_to_rasqal_literal (.blank "b0"))) =
      .ok (some (.blank "b0"))) :=
  ⟨node_literal_round_trip.1 _, node_literal_round_trip.1 _, node_literal_round_trip.1 _,
    node_literal_round_trip.1 _⟩

/-- C13: for every literal node, `redland_node_to_rasqal_literal` gives a string
literal with the node's lexical value, whose language tag is the node's, absent
exactly when the node has none, and whose datatype is the node's, absent exactly
when the node has none; an absent tag or datatype is never an empty string. -/
theorem literal_node_to_string_literal (value : String) (language : Option String)
    (datatype : Option librdf_uri) :
    (redland_node_to_rasqal_literal (.literal value language datatype)).type = .STRING ∧
    (redland_node_to_rasqal_literal (.literal value language datatype)).string = some value ∧
    (redland_node_to_rasqal_literal (.literal value language datatype)).language = language ∧
    (redland_node_to_rasqal_literal (.literal value language datatype)).datatype = datatype ∧
    ((redland_node_to_rasqal_literal (.literal value language datatype)).language = none ↔
      language = none) ∧
    ((redland_node_to_rasqal_literal (.literal value language datatype)).datatype = none ↔
      datatype = none) ∧
    (language = none →
      (redland_node_to_rasqal_literal (.literal value language datatype)).language ≠ some "") ∧
    (datatype = none →
      (redland_node_to_rasqal_literal (.literal value language datatype)).datatype ≠ some "") := by
  refine ⟨rfl, rfl, rfl, rfl, Iff.rfl, Iff.rfl, ?_, ?_⟩
  · intro h; subst h; simp [redland_node_to_rasqal_literal, rasqal_new_string_literal]
  · intro h; subst h; simp [redland_node_to_rasqal_literal, rasqal_new_string_literal]

/-! ## The converter on a `NULL` node -/

/-- C15, counterexample: a literal of a kind outside URI, string, integer,
floating, boolean and blank makes `rasqal_literal_to_redland_node` call
`abort()`; no value is reported to the caller. -/
theorem to_redland_node_aborts_on_other_kind :
    rasqal_literal_to_redland_node
      (some { type := .OTHER 0, string := some "x", language := none, datatype := none,
              value_uri := none, value_variable := none }) = .error .abort := by
  rfl

/-- C15, amended: for every query literal whose kind is not one of URI, string,
integer, floating, boolean or blank, `rasqal_literal_to_redland_node` calls
`abort()`, which ends the process, and so does the creation of a match for a
pattern with such a constant; a literal of one of the six kinds never aborts. -/
theorem to_redland_node_aborts_iff_kind_not_recognised (l : rasqal_literal) :
    (rasqal_literal_to_redland_node (some l) = .error .abort ↔ l.type.recognised = false) ∧
    (l.type.recognised = false →
      ∀ (rtsc : rasqal_redland_triples_source_user_data) (σ : rasqal_variables)
        (m : rasqal_triple_meta) (t : rasqal_triple) (i : Fin 3),
        t.part i = l → rasqal_literal_as_variable l = none →
        rasqal_redland_new_triples_match rtsc σ m t = .error .abort) := by
  have h1 : rasqal_literal_to_redland_node (some l) = .error .abort ↔
      l.type.recognised = false := by
    unfold rasqal_literal_to_redland_node
    cases ht : l.type <;> simp [ht, rasqal_literal_type.recognised]
  refine ⟨h1, ?_⟩
  intro hk rtsc σ m t i hi hvar
  have hq : query_node σ (t.part i) = .error .abort := by
    rw [hi]
    simp only [query_node, hvar]
    exact h1.2 hk
  rw [new_triples_match_eq]
  fin_cases i
  · change query_node σ t.subject = _ at hq
    simp [hq, Except.bind]
  · change query_node σ t.predicate = _ at hq
    cases h0 : query_node σ t.subject with
    | error e => cases e; simp [Except.bind]
    | ok n0 => simp [hq, Except.bind]
  · change query_node σ t.object = _ at hq
    cases h0 : query_node σ t.subject with
    | error e => cases e; simp [Except.bind]
    | ok n0 =>
      cases h1' : query_node σ t.predicate with
      | error e => cases e; simp [Except.bind]
      | ok n1 => simp [hq, Except.bind]

/-! ## Advancing an exhausted match -/

theorem next_match_at_end (rtmc : rasqal_redland_triples_match_context)
    (hend : rasqal_redland_is_end rtmc = true) : rasqal_redland_next_match rtmc = rtmc := by
  obtain ⟨nodes, qstatement, stream⟩ := rtmc
  cases stream with
  | none => rfl
  | some s =>
    obtain ⟨items⟩ := s
    cases items with
    | nil => rfl
    | cons st rest => simp [rasqal_redland_is_end, librdf_stream_end] at hend

/-- C16: on a match context for which `rasqal_redland_is_end` is true,
`rasqal_redland_next_match` changes nothing: after any number of further calls
the context is the same and `rasqal_redland_is_end` is still true. -/
theorem next_match_at_end_is_no_op (rtmc : rasqal_redland_triples_match_context)
    (hend : rasqal_redland_is_end rtmc = true) (n : Nat) :
    (rasqal_redland_next_match^[n]) rtmc = rtmc ∧
    rasqal_redland_is_end ((rasqal_redland_next_match^[n]) rtmc) = true := by
  have h : (rasqal_redland_next_match^[n]) rtmc = rtmc := by
    induction n with
    | zero => rfl
    | succ k ih => rw [Function.iterate_succ_apply', ih, next_match_at_end rtmc hend]
  exact ⟨h, by rw [h]; exact hend⟩

/-- Witness of C16: a stream of one candidate is at its end after one advance,
and three more advances leave it so. -/
theorem next_match_at_end_is_no_op_witness :
    rasqal_redland_is_end (rasqal_redland_triples_match_context.over
      [⟨node_A, node_P, node_B⟩]) = false ∧
    rasqal_redland_is_end (rasqal_redland_next_match
      (rasqal_redland_triples_match_context.over [⟨node_A, node_P, node_B⟩])) = true ∧
    rasqal_redland_is_end ((rasqal_redland_next_match^[3]) (rasqal_redland_next_match
      (rasqal_redland_triples_match_context.over [⟨node_A, node_P, node_B⟩]))) = true :=
  ⟨rfl, rfl, (next_match_at_end_is_no_op (rasqal_redland_next_match
    (rasqal_redland_triples_match_context.over [⟨node_A, node_P, node_B⟩])) rfl 3).2⟩

/-! ## Disposal -/

/-- C17, counterexample: a call of `rasqal_redland_finish_triples_match` on a
context with a stream releases the stream, the query statement and the context,
and leaves no context behind the pointer; and whatever a second call reads
through that pointer, it is no no-op: it makes the release calls on the query
statement it reads and on the context again. -/
theorem finish_twice_releases_again :
    rasqal_redland_finish_triples_match
        ⟨query_A_P_any.part, some query_A_P_any, some ⟨[⟨node_A, node_P, node_B⟩]⟩⟩ =
      (none, [release.free_stream ⟨[⟨node_A, node_P, node_B⟩]⟩,
        release.free_statement (some query_A_P_any), release.free_context]) ∧
    ¬ ∃ read, (rasqal_redland_finish_triples_match read).2 = [] ∨
      release.free_statement read.qstatement ∉ (rasqal_redland_finish_triples_match read).2 ∨
      release.free_context ∉ (rasqal_redland_finish_triples_match read).2 := by
  refine ⟨rfl, ?_⟩
  rintro ⟨⟨nodes, qstatement, stream⟩, h⟩
  cases stream <;> simp [rasqal_redland_finish_triples_match] at h

/-- C17, amended: `rasqal_redland_finish_triples_match` is a destructor: a call
releases the stream when the stream field is not `NULL`, then the query
statement and the context itself, each once and in this order, whatever the
context holds; it keeps no record of having run and leaves no context behind
the pointer to call it on again. -/
theorem finish_triples_match_releases (rtmc : rasqal_redland_triples_match_context) :
    (rasqal_redland_finish_triples_match rtmc).2 =
      (match rtmc.stream with
        | some stream => [release.free_stream stream]
        | none => []) ++
      [release.free_statement rtmc.qstatement, release.free_context] ∧
    (rasqal_redland_finish_triples_match rtmc).1 = none ∧
    ((rasqal_redland_finish_triples_match rtmc).2.count release.free_context = 1) := by
  obtain ⟨nodes, qstatement, stream⟩ := rtmc
  cases stream <;> refine ⟨rfl, rfl, ?_⟩ <;>
    simp [rasqal_redland_finish_triples_match, List.count_cons]

/-! ## Storing in the GDBM hash -/

/-- C18: `librdf_hash_gdbm_put` returns 0 whatever `gdbm_store` returns: for
every behaviour of `gdbm_store` the result is 0 and the value of `gdbm_store`
is dropped; with a key whose data pointer is `NULL`, `gdbm_store` as documented
returns -1 and stores nothing, and `librdf_hash_gdbm_put` still returns 0. -/
theorem hash_gdbm_put_returns_zero_on_failure :
    (∀ (gdbm_store : GDBM_FILE → datum → datum → Int → Int × GDBM_FILE)
        (context : librdf_hash_gdbm_context) (key value : librdf_hash_data) (flags : Nat),
      (librdf_hash_gdbm_put gdbm_store context key value flags).1 = 0) ∧
    (gdbm_store_documented [] ⟨none, 0⟩ ⟨some [1], 1⟩ GDBM_REPLACE = (-1, []) ∧
      librdf_hash_gdbm_put gdbm_store_documented ⟨[], "db.gdbm", ⟨none, 0⟩⟩
        ⟨none, 0⟩ ⟨some [1], 1⟩ 0 = (0, ⟨[], "db.gdbm", ⟨none, 0⟩⟩)) := by
  exact ⟨fun _ _ _ _ _ => rfl, rfl, rfl⟩

/-! ## The pairwise strategy and the first-seen-reference algorithm -/

theorem bind_match_eq_first_seen (eq : librdf_node → librdf_node → Bool)
    (rtmc : rasqal_redland_triples_match_context) (st : librdf_statement)
    (hcur : rtmc.current = some st)
    (bindings : Fin 3 → Option rasqal_variable) (σ : rasqal_variables) :
    rasqal_redland_bind_match eq rtmc bindings σ = bind_first_seen eq st bindings σ := by
  have p0 : st.part 0 = st.subject := rfl
  have p1 : st.part 1 = st.predicate := rfl
  have p2 : st.part 2 = st.object := rfl
  unfold bind_first_seen
  rcases h0 : bindings 0 with _ | a <;> rcases h1 : bindings 1 with _ | b <;>
    rcases h2 : bindings 2 with _ | c <;>
    simp [rasqal_redland_bind_match, bind_first_seen_from, hcur, h0, h1, h2, p0, p1, p2,
      List.lookup]
  · by_cases hbc : b = c
    · subst hbc; cases hpo : eq st.predicate st.object <;> simp [hpo]
    · have e1 : (c == b) = false := beq_eq_false_iff_ne.2 (Ne.symm hbc)
      simp [hbc, e1]
  · by_cases hac : a = c
    · subst hac; cases hso : eq st.subject st.object <;> simp [hso]
    · have e1 : (c == a) = false := beq_eq_false_iff_ne.2 (Ne.symm hac)
      simp [hac, e1]
  · by_cases hab : a = b
    · subst hab; cases hsp : eq st.subject st.predicate <;> simp [hsp]
    · have e1 : (b == a) = false := beq_eq_false_iff_ne.2 (Ne.symm hab)
      simp [hab, e1]
  · by_cases hab : a = b
    · subst hab
      by_cases hac : a = c
      · subst hac
        cases hsp : eq st.subject st.predicate <;> cases hso : eq st.subject st.object <;>
          simp [List.lookup, hsp, hso]
      · have e1 : (c == a) = false := beq_eq_false_iff_ne.2 (Ne.symm hac)
        cases hsp : eq st.subject st.predicate <;> simp [hac, e1, List.lookup, hsp]
    · have e0 : (b == a) = false := beq_eq_false_iff_ne.2 (Ne.symm hab)
      by_cases hac : a = c
      · subst hac
        have e1 : (a == b) = false := beq_eq_false_iff_ne.2 hab
        cases hso : eq st.subject st.object <;>
          simp [hab, Ne.symm hab, e0, e1, List.lookup, hso]
      · have e1 : (c == a) = false := beq_eq_false_iff_ne.2 (Ne.symm hac)
        by_cases hbc : b = c
        · subst hbc
          cases hpo : eq st.predicate st.object <;>
            simp [hab, hac, e0, e1, List.lookup, hpo]
        · have e2 : (c == b) = false := beq_eq_false_iff_ne.2 (Ne.symm hbc)
          simp [hab, hac, hbc, e0, e1, e2, List.lookup]

/-- C20: for every assignment of variables, or absence, to the three binding
slots and every candidate, the pairwise strategy of `rasqal_redland_bind_match`
(slots 0-1, slots 0-2, slots 1-2 only when slots 0 and 1 do not hold the same
variable) gives the same return code and the same variables afterwards, values
and assignments made, as the first-seen-reference algorithm of the spec; the
node equality being an equivalence relation, this holds whether the algorithm
passes the recorded node or the candidate's node first to the equality. -/
theorem bind_match_refines_first_seen (eq : librdf_node → librdf_node → Bool)
    (heq : Equivalence fun a b => eq a b = true)
    (rtmc : rasqal_redland_triples_match_context) (st : librdf_statement)
    (hcur : rtmc.current = some st)
    (bindings : Fin 3 → Option rasqal_variable) (σ : rasqal_variables) :
    rasqal_redland_bind_match eq rtmc bindings σ = bind_first_seen eq st bindings σ ∧
    rasqal_redland_bind_match eq rtmc bindings σ =
      bind_first_seen (fun a b => eq b a) st bindings σ := by
  have hsymm : (fun a b => eq b a) = eq := by
    funext a b
    cases h1 : eq a b
    · cases h2 : eq b a
      · rfl
      · rw [heq.symm h2] at h1; cases h1
    · exact heq.symm h1
  rw [hsymm]
  exact ⟨bind_match_eq_first_seen eq rtmc st hcur bindings σ,
    bind_match_eq_first_seen eq rtmc st hcur bindings σ⟩

/-- Witness of C20: the pattern `(?x, ?x, ?x)` on the candidate `(A, A, B)`: both
reject at the object slot with `x` assigned the subject. -/
theorem bind_match_refines_first_seen_witness :
    rasqal_redland_bind_match librdf_node_equals (.over [⟨node_A, node_A, node_B⟩])
        (slots (some 0) (some 0) (some 0)) .unset =
      bind_first_seen librdf_node_equals ⟨node_A, node_A, node_B⟩
        (slots (some 0) (some 0) (some 0)) .unset ∧
    (bind_first_seen librdf_node_equals ⟨node_A, node_A, node_B⟩
        (slots (some 0) (some 0) (some 0)) .unset).1 = 1 ∧
    (bind_first_seen librdf_node_equals ⟨node_A, node_A, node_B⟩
        (slots (some 0) (some 0) (some 0)) .unset).2.assigned =
      [(0, redland_node_to_rasqal_literal node_A)] :=
  ⟨(bind_match_refines_first_seen librdf_node_equals librdf_node_equals_equivalence
      (.over [⟨node_A, node_A, node_B⟩]) ⟨node_A, node_A, node_B⟩ rfl
      (slots (some 0) (some 0) (some 0)) .unset).1,
    by decide, by decide⟩

/-! ## rdf-tree: what the output model holds -/

theorem is_match_subject (st : librdf_statement) (x : librdf_node) :
    st.is_match ⟨some x, none, none⟩ = decide (st.subject = x) := by
  simp [librdf_statement.is_match, librdf_node_equals]

theorem find_duplicate_end (out : List librdf_statement) (st : librdf_statement) :
    (out.filter fun s => s.is_match (librdf_new_statement_from_statement st)).isEmpty = true ↔
      st ∉ out := by
  rw [List.isEmpty_iff, List.filter_eq_nil_iff]
  constructor
  · intro h hmem
    exact h st hmem ((is_match_complete st _ _ _).2 rfl)
  · intro h s hs hm
    have : s = st := by
      have := (is_match_complete s st.subject st.predicate st.object).1 hm
      rw [this]
    exact h (this ▸ hs)

theorem find_about_end (out : List librdf_statement) (x : librdf_node) :
    (out.filter fun s => s.is_match ⟨some x, none, none⟩).isEmpty = true ↔
      ∀ s ∈ out, s.subject ≠ x := by
  rw [List.isEmpty_iff, List.filter_eq_nil_iff]
  simp [is_match_subject]

theorem tree_while_cons (world : librdf_world)
    (recurse : librdf_node → List librdf_statement → Int →
      Option (Int × List librdf_statement))
    (level : Int) (st : librdf_statement) (rest out : List librdf_statement) :
    tree_while world recurse level (st :: rest) out =
      if st ∈ out then tree_while world recurse level rest out
      else if world.out_of_memory = true then some (1, out)
      else if level ≠ 0 ∧ st.object.is_resource_or_blank = true ∧
          ∀ s ∈ out ++ [st], s.subject ≠ st.object then
        match recurse st.object (out ++ [st]) (level - 1) with
        | none => none
        | some r => if r.1 ≠ 0 then some (1, r.2) else tree_while world recurse level rest r.2
      else tree_while world recurse level rest (out ++ [st]) := by
  rw [tree_while]
  simp only [librdf_model.exact, librdf_stream_end, find_duplicate_end,
    librdf_model_add_statement, librdf_new_statement_from_nodes]
  by_cases hmem : st ∈ out
  · simp [hmem]
  · by_cases hoom : world.out_of_memory = true
    · simp [hmem, hoom]
    · simp only [hmem, not_false_eq_true, if_true, hoom, if_false, Bool.false_eq_true,
        find_about_end]
      split_ifs <;> first | rfl | (exfalso; tauto)

theorem tree_succ (world : librdf_world) (model : List librdf_statement) (fuel : Nat)
    (node : librdf_node) (out : List librdf_statement) (level : Int) :
    tree world (.exact model) (fuel + 1) node out level =
      if world.out_of_memory = true then some (1, out)
      else tree_while world (tree world (.exact model) fuel) level
        (model.filter fun st => decide (st.subject = node)) out := by
  rw [tree]
  by_cases hoom : world.out_of_memory = true
  · simp [librdf_new_statement_from_nodes, hoom]
  · simp [librdf_new_statement_from_nodes, hoom, librdf_model.exact, is_match_subject]

theorem closed_except_append (model out : List librdf_statement) (A : librdf_node → Prop)
    (st : librdf_statement) (hA : A st.subject) (h : closed_except model out A) :
    closed_except model (out ++ [st]) A := by
  intro st0 hst0 hnA hex
  obtain ⟨s, hs, hsub⟩ := hex
  rcases List.mem_append.1 hs with hs | hs
  · exact List.mem_append_left _ (h st0 hst0 hnA ⟨s, hs, hsub⟩)
  · have : s = st := by simpa using hs
    subst this
    exact absurd (hsub ▸ hA) hnA

theorem tree_while_spec (world : librdf_world) (model : List librdf_statement)
    (recurse : librdf_node → List librdf_statement → Int →
      Option (Int × List librdf_statement))
    (level : Int) (node : librdf_node)
    (hrec : ∀ x o l o', recurse x o l = some (0, o') → (∀ s ∈ o, s.subject ≠ x) →
      tree_post model x o o') :
    ∀ (items out out' : List librdf_statement),
      (∀ st ∈ items, st ∈ model ∧ st.subject = node) →
      tree_while world recurse level items out = some (0, out') →
      (∀ s ∈ out, s ∈ out') ∧
      (∀ st ∈ items, st ∈ out') ∧
      (∀ A : librdf_node → Prop, closed_except model out (fun x => A x ∨ x = node) →
        closed_except model out' (fun x => A x ∨ x = node)) ∧
      (∀ s ∈ out', s ∉ out → s.subject = node ∨ ∀ s0 ∈ out, s0.subject ≠ s.subject) ∧
      (level ≠ 0 → ∀ st ∈ items, st ∉ out → st.object.is_resource_or_blank = true →
        (∀ st2 ∈ model, st2.subject = st.object → st2 ∈ out') ∨
          ∃ s ∈ out', s.subject = st.object) := by
  intro items
  induction items with
  | nil =>
    intro out out' _ h
    simp only [tree_while, Option.some.injEq, Prod.mk.injEq, true_and] at h
    subst h
    exact ⟨fun s hs => hs, by simp, fun A hA => hA, fun s hs hns => absurd hs hns, by simp⟩
  | cons st rest ih =>
    intro out out' hitems h
    have hst := hitems st (List.mem_cons_self _ _)
    have hrest : ∀ st ∈ rest, st ∈ model ∧ st.subject = node :=
      fun s hs => hitems s (List.mem_cons_of_mem _ hs)
    rw [tree_while_cons] at h
    by_cases hmem : st ∈ out
    · rw [if_pos hmem] at h
      obtain ⟨ha, hb, hc, hd, he⟩ := ih out out' hrest h
      refine ⟨ha, ?_, hc, hd, ?_⟩
      · intro s hs
        rcases List.mem_cons.1 hs with hs | hs
        · exact hs ▸ ha st hmem
        · exact hb s hs
      · intro hl s hs hns hrb
        rcases List.mem_cons.1 hs with hs | hs
        · exact absurd (hs ▸ hmem) hns
        · exact he hl s hs hns hrb
    · rw [if_neg hmem] at h
      by_cases hoom : world.out_of_memory = true
      · rw [if_pos hoom] at h
        simp at h
      · rw [if_neg hoom] at h
        have hout1 : ∀ s ∈ out, s ∈ out ++ [st] := fun s hs => List.mem_append_left _ hs
        have hst1 : st ∈ out ++ [st] := List.mem_append_right _ (List.mem_singleton_self _)
        have hclosed1 : ∀ A : librdf_node → Prop,
            closed_except model out (fun x => A x ∨ x = node) →
            closed_except model (out ++ [st]) (fun x => A x ∨ x = node) :=
          fun A hA => closed_except_append model out _ st (Or.inr hst.2) hA
        by_cases hC : level ≠ 0 ∧ st.object.is_resource_or_blank = true ∧
            ∀ s ∈ out ++ [st], s.subject ≠ st.object
        · rw [if_pos hC] at h
          cases hr : recurse st.object (out ++ [st]) (level - 1) with
          | none => rw [hr] at h; simp at h
          | some r =>
            rw [hr] at h
            simp only at h
            by_cases hrc : r.1 ≠ 0
            · rw [if_pos hrc] at h
              simp at h
            · rw [if_neg hrc] at h
              have hr0 : recurse st.object (out ++ [st]) (level - 1) = some (0, r.2) := by
                rw [hr]
                have : r.1 = 0 := by simpa using hrc
                rw [← this]
              obtain ⟨pa, pb, pc, pd⟩ := hrec _ _ _ _ hr0 hC.2.2
              obtain ⟨ha, hb, hc, hd, he⟩ := ih r.2 out' hrest h
              refine ⟨fun s hs => ha s (pa s (hout1 s hs)), ?_, ?_, ?_, ?_⟩
              · intro s hs
                rcases List.mem_cons.1 hs with hs | hs
                · exact hs ▸ ha st (pa st hst1)
                · exact hb s hs
              · intro A hA
                exact hc A (pc _ (hclosed1 A hA))
              · intro s hs hns
                by_cases hs2 : s ∈ r.2
                · by_cases hs1 : s ∈ out ++ [st]
                  · rcases List.mem_append.1 hs1 with h1 | h1
                    · exact absurd h1 hns
                    · have : s = st := by simpa using h1
                      exact Or.inl (this ▸ hst.2)
                  · exact Or.inr fun s0 hs0 => pd s hs2 hs1 s0 (hout1 s0 hs0)
                · rcases hd s hs hs2 with h1 | h1
                  · exact Or.inl h1
                  · exact Or.inr fun s0 hs0 => h1 s0 (pa s0 (hout1 s0 hs0))
              · intro hl s hs hns hrb
                rcases List.mem_cons.1 hs with hs | hs
                · subst hs
                  exact Or.inl fun st2 h2 hsub => ha st2 (pb st2 h2 hsub)
                · by_cases hsst : s = st
                  · subst hsst
                    exact Or.inl fun st2 h2 hsub => ha st2 (pb st2 h2 hsub)
                  · by_cases hs2 : s ∈ r.2
                    · exfalso
                      have hs1 : s ∉ out ++ [st] := by
                        intro h1
                        rcases List.mem_append.1 h1 with h1 | h1
                        · exact hns h1
                        · exact hsst (by simpa using h1)
                      exact pd s hs2 hs1 st hst1 (by rw [hst.2, (hrest s hs).2])
                    · exact he hl s hs hs2 hrb
        · rw [if_neg hC] at h
          obtain ⟨ha, hb, hc, hd, he⟩ := ih (out ++ [st]) out' hrest h
          refine ⟨fun s hs => ha s (hout1 s hs), ?_, fun A hA => hc A (hclosed1 A hA), ?_, ?_⟩
          · intro s hs
            rcases List.mem_cons.1 hs with hs | hs
            · exact hs ▸ ha st hst1
            · exact hb s hs
          · intro s hs hns
            by_cases hs1 : s ∈ out ++ [st]
            · rcases List.mem_append.1 hs1 with h1 | h1
              · exact absurd h1 hns
              · have : s = st := by simpa using h1
                exact Or.inl (this ▸ hst.2)
            · rcases hd s hs hs1 with h1 | h1
              · exact Or.inl h1
              · exact Or.inr fun s0 hs0 => h1 s0 (hout1 s0 hs0)
          · intro hl s hs hns hrb
            rcases List.mem_cons.1 hs with hs | hs
            · subst hs
              have : ¬ ∀ s0 ∈ out ++ [s], s0.subject ≠ s.object :=
                fun hall => hC ⟨hl, hrb, hall⟩
              push_neg at this
              obtain ⟨s0, hs0, hsub⟩ := this
              exact Or.inr ⟨s0, ha s0 hs0, hsub⟩
            · by_cases hs1 : s ∈ out ++ [st]
              · rcases List.mem_append.1 hs1 with h1 | h1
                · exact absurd h1 hns
                · have hsst : s = st := by simpa using h1
                  subst hsst
                  have : ¬ ∀ s0 ∈ out ++ [s], s0.subject ≠ s.object :=
                    fun hall => hC ⟨hl, hrb, hall⟩
                  push_neg at this
                  obtain ⟨s0, hs0, hsub⟩ := this
                  exact Or.inr ⟨s0, ha s0 hs0, hsub⟩
              · exact he hl s hs hs1 hrb

theorem tree_spec (world : librdf_world) (model : List librdf_statement) :
    ∀ (fuel : Nat) (node : librdf_node) (out : List librdf_statement) (level : Int)
      (out' : List librdf_statement),
      tree world (.exact model) fuel node out level = some (0, out') →
      (∀ s ∈ out, s.subject ≠ node) →
      tree_post model node out out' ∧
      (level ≠ 0 → ∀ st ∈ model, st.subject = node → st.object.is_resource_or_blank = true →
        (∀ st2 ∈ model, st2.subject = st.object → st2 ∈ out') ∨
          ∃ s ∈ out', s.subject = st.object) := by
  intro fuel
  induction fuel with
  | zero => intro node out level out' h; simp [tree] at h
  | succ fuel ih =>
    intro node out level out' h hpre
    rw [tree_succ] at h
    by_cases hoom : world.out_of_memory = true
    · rw [if_pos hoom] at h; simp at h
    · rw [if_neg hoom] at h
      have hitems : ∀ st ∈ model.filter (fun st => decide (st.subject = node)),
          st ∈ model ∧ st.subject = node := by
        intro st hst
        simpa using List.mem_filter.1 hst
      obtain ⟨ha, hb, hc, hd, he⟩ := tree_while_spec world model
        (tree world (.exact model) fuel) level node
        (fun x o l o' hx hp => (ih x o l o' hx hp).1) _ out out' hitems h
      have hnode : ∀ st ∈ model, st.subject = node → st ∈ out' := fun st hst hsub =>
        hb st (List.mem_filter.2 ⟨hst, by simpa using hsub⟩)
      refine ⟨⟨ha, hnode, ?_, ?_⟩, ?_⟩
      · intro A hA st hst hnA hex
        by_cases hsub : st.subject = node
        · exact hnode st hst hsub
        · have hA' : closed_except model out (fun x => A x ∨ x = node) :=
            fun st0 hst0 hn0 hex0 => hA st0 hst0 (fun h0 => hn0 (Or.inl h0)) hex0
          exact hc A hA' st hst (fun h0 => h0.elim hnA hsub) hex
      · intro s hs hns s0 hs0
        rcases hd s hs hns with h1 | h1
        · rw [h1]; exact hpre s0 hs0
        · exact h1 s0 hs0
      · intro hl st hst hsub hrb
        refine he hl st (List.mem_filter.2 ⟨hst, by simpa using hsub⟩) ?_ hrb
        intro hin
        exact hpre st hin hsub

theorem tree_while_returns (world : librdf_world)
    (recurse : librdf_node → List librdf_statement → Int →
      Option (Int × List librdf_statement))
    (level : Int)
    (hrec : level ≠ 0 → ∀ x o, ∃ r, recurse x o (level - 1) = some r) :
    ∀ (items out : List librdf_statement),
      ∃ r, tree_while world recurse level items out = some r := by
  intro items
  induction items with
  | nil => intro out; exact ⟨_, rfl⟩
  | cons st rest ih =>
    intro out
    rw [tree_while_cons]
    split_ifs with h1 h2 h3
    · exact ih out
    · exact ⟨_, rfl⟩
    · obtain ⟨r, hr⟩ := hrec h3.1 st.object (out ++ [st])
      rw [hr]
      simp only
      split_ifs
      · exact ⟨_, rfl⟩
      · exact ih r.2
    · exact ih _

theorem tree_returns (world : librdf_world) (model : List librdf_statement) :
    ∀ (fuel : Nat) (node : librdf_node) (out : List librdf_statement) (level : Int),
      0 ≤ level → level.toNat < fuel →
      ∃ r, tree world (.exact model) fuel node out level = some r := by
  intro fuel
  induction fuel with
  | zero => intro node out level _ h; omega
  | succ fuel ih =>
    intro node out level hl hf
    rw [tree_succ]
    split_ifs
    · exact ⟨_, rfl⟩
    · apply tree_while_returns
      intro hne x o
      exact ih x o (level - 1) (by omega) (by omega)
/-- C19, counterexample: with level 2, from an empty output model, `tree` on `A`
returns 0 with four statements; `D` is two object links away from `A` (through
`C`), `(D, P, E)` is a statement of the model about `D`, and the output does not
hold it: `C` was entered at level 0 below `B` first, and is not entered again
from `A`. -/
theorem tree_level_two_misses_statement :
    tree ⟨false⟩ (.exact model_two_paths) 3 node_A [] 2 =
      some (0, [⟨node_A, node_P, node_B⟩, ⟨node_B, node_P, node_C⟩,
        ⟨node_C, node_P, node_D⟩, ⟨node_A, node_P, node_C⟩]) ∧
    reachable_within model_two_paths node_A 2 node_D = true ∧
    (⟨node_D, node_P, node_E⟩ : librdf_statement) ∈ model_two_paths ∧
    (⟨node_D, node_P, node_E⟩ : librdf_statement) ∉
      [⟨node_A, node_P, node_B⟩, ⟨node_B, node_P, node_C⟩,
        ⟨node_C, node_P, node_D⟩, (⟨node_A, node_P, node_C⟩ : librdf_statement)] := by
  decide

/-- C19, amended: for every finite model, start node and level, when `tree`
returns 0 from an empty output model, the output holds every statement of the
model about `node` and, when the level is not 0, every statement about the
resource or blank objects of those statements (at most one object link), and it
holds all the statements of the model about each subject it has a statement
about; deeper statements are not promised, since the object of a statement is
not entered when the output already has statements about it. For a level
`L >= 0`, `tree` returns once the recursion depth allowed exceeds `L`. -/
theorem tree_output_holds_first_levels (world : librdf_world)
    (model : List librdf_statement) (node : librdf_node) (level : Int) (fuel : Nat) :
    (0 ≤ level → level.toNat < fuel →
      ∃ r, tree world (.exact model) fuel node [] level = some r) ∧
    (∀ out' : List librdf_statement,
      tree world (.exact model) fuel node [] level = some (0, out') →
      (∀ st ∈ model,
        reachable_within model node (if level = 0 then 0 else 1) st.subject = true →
        st ∈ out') ∧
      closed_except model out' (fun _ => False)) := by
  refine ⟨tree_returns world model fuel node [] level, ?_⟩
  intro out' h
  obtain ⟨⟨_, hnode, hclosed, _⟩, hobj⟩ :=
    tree_spec world model fuel node [] level out' h (by simp)
  have hcl : closed_except model out' (fun _ => False) :=
    hclosed _ (fun st _ _ hex => by simp at hex)
  refine ⟨?_, hcl⟩
  intro st hst hreach
  by_cases hl : level = 0
  · rw [if_pos hl] at hreach
    simp only [reachable_within, decide_eq_true_eq] at hreach
    exact hnode st hst hreach
  · rw [if_neg hl] at hreach
    simp only [reachable_within, Bool.or_eq_true, decide_eq_true_eq, List.any_eq_true,
      Bool.and_eq_true] at hreach
    rcases hreach with hreach | ⟨st1, hst1, ⟨hsub1, hobj1⟩, hrb⟩
    · exact hnode st hst hreach
    · rcases hobj hl st1 hst1 hsub1 (hobj1 ▸ hrb) with h2 | ⟨s, hs, hsub⟩
      · exact h2 st hst hobj1.symm
      · exact hcl st hst (fun hf => hf) ⟨s, hs, hsub.trans hobj1⟩

/-- Witness of C19 (amended): level 1 on the model with two paths: the output
holds the statements about `A` and about its objects `B` and `C`. -/
theorem tree_output_holds_first_levels_witness :
    tree ⟨false⟩ (.exact model_two_paths) 2 node_A [] 1 =
      some (0, [⟨node_A, node_P, node_B⟩, ⟨node_B, node_P, node_C⟩,
        ⟨node_A, node_P, node_C⟩, ⟨node_C, node_P, node_D⟩]) ∧
    ∀ st ∈ model_two_paths,
      reachable_within model_two_paths node_A (if (1 : Int) = 0 then 0 else 1) st.subject =
        true →
      st ∈ [⟨node_A, node_P, node_B⟩, ⟨node_B, node_P, node_C⟩,
        ⟨node_A, node_P, node_C⟩, (⟨node_C, node_P, node_D⟩ : librdf_statement)] :=
  ⟨by decide,
    ((tree_output_holds_first_levels ⟨false⟩ model_two_paths node_A 1 2).2 _
      (by decide)).1⟩

/-! ## Initialising a query -/

/-- C21: `librdf_query_rasqal_init` returns non-zero, 1, exactly when
`rasqal_new_query` gives no query object; when the query object is created but
the copy of the query string cannot be allocated it returns 0 and leaves the
context's query string and base URI as they were, unset for a context handed
over zeroed, the query object being kept in the context. -/
theorem query_rasqal_init_return_code (rasqal_new_query : String → Option rasqal_query)
    (malloc : Nat → Bool) (context : librdf_query_rasqal_context) (query : librdf_query)
    (uri : Option librdf_uri) (query_string : String) :
    ((librdf_query_rasqal_init rasqal_new_query malloc context query uri query_string).1 ≠ 0 ↔
      rasqal_new_query query.factory_name = none) ∧
    (rasqal_new_query query.factory_name = none →
      (librdf_query_rasqal_init rasqal_new_query malloc context query uri query_string).1 = 1) ∧
    (∀ rq, rasqal_new_query query.factory_name = some rq →
      malloc (query_string.utf8ByteSize + 1) = false →
      (librdf_query_rasqal_init rasqal_new_query malloc context query uri query_string).1 = 0 ∧
      (librdf_query_rasqal_init rasqal_new_query malloc context query uri
        query_string).2.query_string = context.query_string ∧
      (librdf_query_rasqal_init rasqal_new_query malloc context query uri
        query_string).2.uri = context.uri ∧
      (librdf_query_rasqal_init rasqal_new_query malloc context query uri
        query_string).2.rq = some (rasqal_query_set_user_data rq query)) ∧
    (∀ rq, rasqal_new_query query.factory_name = some rq →
      malloc (query_string.utf8ByteSize + 1) = true →
      (librdf_query_rasqal_init rasqal_new_query malloc context query uri
        query_string).2.query_string = some query_string) := by
  unfold librdf_query_rasqal_init
  cases hq : rasqal_new_query query.factory_name with
  | none => simp
  | some rq =>
    cases hm : malloc (query_string.utf8ByteSize + 1) <;> cases uri <;> simp [hm]

/-- Witness of C21: the query object is created and the allocation of the copy
of the query string fails: 0 is returned, query string and base URI are unset. -/
theorem query_rasqal_init_return_code_witness :
    librdf_query_rasqal_init (fun language => some ⟨language, none⟩) (fun _ => false)
        .zeroed ⟨7, "rdql"⟩ (some "http://example/") "SELECT ?x" =
      (0, ⟨some ⟨7, "rdql"⟩, some ⟨"rdql", some ⟨7, "rdql"⟩⟩, some "rdql", none, none⟩) ∧
    (librdf_query_rasqal_init (fun language => some ⟨language, none⟩) (fun _ => false)
        .zeroed ⟨7, "rdql"⟩ (some "http://example/") "SELECT ?x").1 = 0 ∧
    (librdf_query_rasqal_init (fun _ => none) (fun _ => true)
        .zeroed ⟨7, "rdql"⟩ (some "http://example/") "SELECT ?x").1 = 1 :=
  ⟨by decide,
    ((query_rasqal_init_return_code (fun language => some ⟨language, none⟩) (fun _ => false)
      .zeroed ⟨7, "rdql"⟩ (some "http://example/") "SELECT ?x").2.2.1 _ rfl rfl).1,
    (query_rasqal_init_return_code (fun _ => none) (fun _ => true)
      .zeroed ⟨7, "rdql"⟩ (some "http://example/") "SELECT ?x").2.1 rfl⟩

/-! ## rdf-tree: termination -/

theorem filter_length_le_of_imp {α : Type} (p q : α → Bool) :
    ∀ l : List α, (∀ x ∈ l, q x = true → p x = true) →
      (l.filter q).length ≤ (l.filter p).length
  | [], _ => by simp
  | a :: l, h => by
    have ih := filter_length_le_of_imp p q l (fun x hx => h x (List.mem_cons_of_mem _ hx))
    have ha := h a (List.mem_cons_self _ _)
    cases hq : q a <;> cases hp : p a <;> (simp_all [List.filter_cons]; try omega)

theorem filter_length_lt_of_imp {α : Type} (p q : α → Bool) :
    ∀ l : List α, (∀ x ∈ l, q x = true → p x = true) →
      (∃ a ∈ l, p a = true ∧ q a = false) →
      (l.filter q).length < (l.filter p).length
  | [], _, hex => by simp at hex
  | a :: l, h, hex => by
    have hl : ∀ x ∈ l, q x = true → p x = true := fun x hx => h x (List.mem_cons_of_mem _ hx)
    have hle := filter_length_le_of_imp p q l hl
    have ha := h a (List.mem_cons_self _ _)
    obtain ⟨b, hb, hpb, hqb⟩ := hex
    rcases List.mem_cons.1 hb with rfl | hb
    · simp [List.filter_cons, hpb, hqb]
      omega
    · have ih := filter_length_lt_of_imp p q l hl ⟨b, hb, hpb, hqb⟩
      cases hq : q a <;> cases hp : p a <;> (simp_all [List.filter_cons]; try omega)

/-- Entering a node of the model that had no statement in the output model
leaves fewer statements about new subjects. -/
theorem new_subjects_lt (model out o : List librdf_statement) (node : librdf_node)
    (m : librdf_statement) (hm : m ∈ model) (hms : m.subject = node)
    (hnew : ∀ s ∈ out, s.subject ≠ node) (hsub : ∀ s ∈ out, s ∈ o)
    (hex : ∃ s ∈ o, s.subject = node) :
    (statements_about_new_subjects model o).length <
      (statements_about_new_subjects model out).length := by
  unfold statements_about_new_subjects
  apply filter_length_lt_of_imp
  · intro x _ hx
    simp only [List.all_eq_true, decide_eq_true_eq] at hx ⊢
    exact fun s hs => hx s (hsub s hs)
  · refine ⟨m, hm, ?_, ?_⟩
    · simp only [List.all_eq_true, decide_eq_true_eq]
      intro s hs
      rw [hms]
      exact hnew s hs
    · obtain ⟨s, hs, hsn⟩ := hex
      rw [Bool.eq_false_iff]
      intro hall
      simp only [List.all_eq_true, decide_eq_true_eq] at hall
      exact hall s hs (hsn.trans hms.symm)

/-- Once the output model holds a statement about a subject of the model, fewer
statements than the model has are about new subjects. -/
theorem new_subjects_lt_length (model o : List librdf_statement) (node : librdf_node)
    (m : librdf_statement) (hm : m ∈ model) (hms : m.subject = node)
    (hex : ∃ s ∈ o, s.subject = node) :
    (statements_about_new_subjects model o).length < model.length := by
  have h := new_subjects_lt model [] o node m hm hms (by simp) (by simp) hex
  have h2 : (statements_about_new_subjects model []).length ≤ model.length := by
    unfold statements_about_new_subjects
    exact List.length_filter_le _ _
  omega

/-- The loop of `tree` returns when the recursive call returns wherever the
loop makes it: on an object without a statement in the output model, the
output model holding a statement about `node` by then. -/
theorem tree_while_returns_guarded (world : librdf_world)
    (recurse : librdf_node → List librdf_statement → Int →
      Option (Int × List librdf_statement))
    (level : Int) (node : librdf_node) (out0 : List librdf_statement)
    (hrec : ∀ x o, (∀ s ∈ o, s.subject ≠ x) → (∀ s ∈ out0, s ∈ o) →
      (∃ s ∈ o, s.subject = node) → ∃ r, recurse x o (level - 1) = some r)
    (hmono : ∀ x o o', recurse x o (level - 1) = some (0, o') →
      (∀ s ∈ o, s.subject ≠ x) → ∀ s ∈ o, s ∈ o') :
    ∀ (items out : List librdf_statement), (∀ st ∈ items, st.subject = node) →
      (∀ s ∈ out0, s ∈ out) →
      ∃ r, tree_while world recurse level items out = some r := by
  intro items
  induction items with
  | nil => intro out _ _; exact ⟨_, rfl⟩
  | cons st rest ih =>
    intro out hitems hsub
    have hrest : ∀ st ∈ rest, st.subject = node :=
      fun s hs => hitems s (List.mem_cons_of_mem _ hs)
    have hst : st.subject = node := hitems st (List.mem_cons_self _ _)
    have hsub1 : ∀ s ∈ out0, s ∈ out ++ [st] :=
      fun s hs => List.mem_append_left _ (hsub s hs)
    rw [tree_while_cons]
    split_ifs with h1 h2 h3
    · exact ih out hrest hsub
    · exact ⟨_, rfl⟩
    · obtain ⟨r, hr⟩ := hrec st.object (out ++ [st]) h3.2.2 hsub1
        ⟨st, by simp, hst⟩
      rw [hr]
      simp only
      split_ifs with h4
      · exact ⟨_, rfl⟩
      · have h0 : r.1 = 0 := by simpa using h4
        have hr0 : recurse st.object (out ++ [st]) (level - 1) = some (0, r.2) := by
          rw [hr, ← h0]
        exact ih r.2 hrest fun s hs => hmono _ _ _ hr0 h3.2.2 s (hsub1 s hs)
    · exact ih _ hrest hsub1

/-- A call of `tree` on a node without a statement in the output model returns
when the fuel exceeds the number of statements about new subjects. -/
theorem tree_returns_of_new (world : librdf_world) (model : List librdf_statement) :
    ∀ (fuel : Nat) (node : librdf_node) (out : List librdf_statement) (level : Int),
      (∀ s ∈ out, s.subject ≠ node) →
      (statements_about_new_subjects model out).length < fuel →
      ∃ r, tree world (.exact model) fuel node out level = some r := by
  intro fuel
  induction fuel with
  | zero => intro node out level _ h; omega
  | succ fuel ih =>
    intro node out level hnew hf
    rw [tree_succ]
    split_ifs
    · exact ⟨_, rfl⟩
    · rcases hitems : (model.filter fun st => decide (st.subject = node)) with _ | ⟨m, rest⟩
      · rw [hitems]; exact ⟨_, rfl⟩
      · have hm : m ∈ model.filter fun st => decide (st.subject = node) := by
          rw [hitems]; exact List.mem_cons_self _ _
        have hm2 : m ∈ model ∧ m.subject = node := by simpa using hm
        apply tree_while_returns_guarded world _ level node out
        · intro x o hx hsub hex
          apply ih x o (level - 1) hx
          have := new_subjects_lt model out o node m hm2.1 hm2.2 hnew hsub hex
          omega
        · intro x o o' h hx
          exact (tree_spec world model fuel x o (level - 1) o' h hx).1.1
        · intro st hst
          simpa using (List.mem_filter.1 hst).2
        · exact fun s hs => hs

/-- A call of `tree` returns, whatever the level and the output model, when the
fuel exceeds the number of statements of the model. -/
theorem tree_returns_of_length (world : librdf_world) (model : List librdf_statement)
    (fuel : Nat) (node : librdf_node) (out : List librdf_statement) (level : Int)
    (hf : model.length < fuel) :
    ∃ r, tree world (.exact model) fuel node out level = some r := by
  obtain ⟨fuel, rfl⟩ : ∃ f, fuel = f + 1 := ⟨fuel - 1, by omega⟩
  rw [tree_succ]
  split_ifs
  · exact ⟨_, rfl⟩
  · rcases hitems : (model.filter fun st => decide (st.subject = node)) with _ | ⟨m, rest⟩
    · rw [hitems]; exact ⟨_, rfl⟩
    · have hm : m ∈ model.filter fun st => decide (st.subject = node) := by
        rw [hitems]; exact List.mem_cons_self _ _
      have hm2 : m ∈ model ∧ m.subject = node := by simpa using hm
      apply tree_while_returns_guarded world _ level node out
      · intro x o hx _ hex
        apply tree_returns_of_new world model fuel x o (level - 1) hx
        have := new_subjects_lt_length model o node m hm2.1 hm2.2 hex
        omega
      · intro x o o' h hx
        exact (tree_spec world model fuel x o (level - 1) o' h hx).1.1
      · intro st hst
        simpa using (List.mem_filter.1 hst).2
      · exact fun s hs => hs
/-- The loop of `tree` gives the same result with a recursive call that returns
more often. -/
theorem tree_while_mono (world : librdf_world)
    (recurse recurse' : librdf_node → List librdf_statement → Int →
      Option (Int × List librdf_statement))
    (level : Int)
    (h : ∀ x o r, recurse x o (level - 1) = some r → recurse' x o (level - 1) = some r) :
    ∀ (items out : List librdf_statement) (r : Int × List librdf_statement),
      tree_while world recurse level items out = some r →
      tree_while world recurse' level items out = some r := by
  intro items
  induction items with
  | nil => intro out r hr; exact hr
  | cons st rest ih =>
    intro out r
    rw [tree_while_cons, tree_while_cons]
    split_ifs with h1 h2 h3
    · exact ih out r
    · exact id
    · rcases hq : recurse st.object (out ++ [st]) (level - 1) with _ | q
      · simp
      · rw [h _ _ _ hq]
        simp only
        split_ifs
        · exact id
        · exact ih q.2 r
    · exact ih _ r

/-- More fuel does not change what `tree` returns. -/
theorem tree_fuel_mono (world : librdf_world) (model : List librdf_statement) :
    ∀ (fuel fuel' : Nat) (node : librdf_node) (out : List librdf_statement) (level : Int)
      (r : Int × List librdf_statement), fuel ≤ fuel' →
      tree world (.exact model) fuel node out level = some r →
      tree world (.exact model) fuel' node out level = some r := by
  intro fuel
  induction fuel with
  | zero => intro fuel' node out level r _ h; simp [tree] at h
  | succ fuel ih =>
    intro fuel' node out level r hle
    obtain ⟨fuel', rfl⟩ : ∃ f, fuel' = f + 1 := ⟨fuel' - 1, by omega⟩
    rw [tree_succ, tree_succ]
    split_ifs
    · exact id
    · apply tree_while_mono
      intro x o q hq
      exact ih fuel' x o (level - 1) q (by omega) hq

/-- The loop of `tree` on statements about `node` consults the recursive call
only with a non-zero level, on a resource or blank object without a statement
in the output model, the output model holding one of the statements about
`node` by then. -/
theorem tree_while_congr_guarded (world : librdf_world)
    (recurse recurse' : librdf_node → List librdf_statement → Int →
      Option (Int × List librdf_statement))
    (level : Int) (node : librdf_node) (model : List librdf_statement)
    (h : ∀ x o, level ≠ 0 → x.is_resource_or_blank = true → (∀ s ∈ o, s.subject ≠ x) →
      (∃ s ∈ o, s ∈ model ∧ s.subject = node) →
      recurse x o (level - 1) = recurse' x o (level - 1)) :
    ∀ (items out : List librdf_statement), (∀ st ∈ items, st ∈ model ∧ st.subject = node) →
      tree_while world recurse level items out =
        tree_while world recurse' level items out := by
  intro items
  induction items with
  | nil => intro out _; rfl
  | cons st rest ih =>
    intro out hitems
    have hrest : ∀ st ∈ rest, st ∈ model ∧ st.subject = node :=
      fun s hs => hitems s (List.mem_cons_of_mem _ hs)
    rw [tree_while_cons, tree_while_cons]
    split_ifs with h1 h2 h3
    · exact ih out hrest
    · rfl
    · rw [h st.object (out ++ [st]) h3.1 h3.2.1 h3.2.2
        ⟨st, by simp, hitems st (List.mem_cons_self _ _)⟩]
      rcases recurse' st.object (out ++ [st]) (level - 1) with _ | q
      · rfl
      · simp only
        split_ifs
        · rfl
        · exact ih q.2 hrest
    · exact ih _ hrest
/-- C22: for every finite model, output model and integer level, negative ones
included, `tree` terminates: it returns a result with any fuel above the
number of statements of the model, and more fuel does not change a result; its
loop consults the recursive call only with a non-zero level, on a resource or
blank object without a statement in the output model, the output model holding a statement of the model about the node
of the call by then; and for a level of 0 or more it returns with any fuel
above the level, so the recursion is at most `level` deep. -/
theorem tree_terminates (world : librdf_world) (model : List librdf_statement)
    (node : librdf_node) (out : List librdf_statement) (level : Int) :
    (∀ fuel, model.length < fuel →
      ∃ r, tree world (.exact model) fuel node out level = some r) ∧
    (∀ fuel fuel' r, fuel ≤ fuel' →
      tree world (.exact model) fuel node out level = some r →
      tree world (.exact model) fuel' node out level = some r) ∧
    (∀ recurse recurse' : librdf_node → List librdf_statement → Int →
        Option (Int × List librdf_statement),
      (∀ x o, level ≠ 0 → x.is_resource_or_blank = true → (∀ s ∈ o, s.subject ≠ x) →
        (∃ s ∈ o, s ∈ model ∧ s.subject = node) →
        recurse x o (level - 1) = recurse' x o (level - 1)) →
      tree_while world recurse level (model.filter fun st => decide (st.subject = node)) out =
        tree_while world recurse' level
          (model.filter fun st => decide (st.subject = node)) out) ∧
    (0 ≤ level → ∀ fuel, level.toNat < fuel →
      ∃ r, tree world (.exact model) fuel node out level = some r) := by
  refine ⟨fun fuel hf => tree_returns_of_length world model fuel node out level hf,
    fun fuel fuel' r hle h => tree_fuel_mono world model fuel fuel' node out level r hle h,
    fun recurse recurse' h => ?_,
    fun hl fuel hf => tree_returns world model fuel node out level hl hf⟩
  apply tree_while_congr_guarded world recurse recurse' level node model h
  · intro st hst
    simpa using hst

/-- Witness of C22: with level -1, which never reaches 0, `tree` on `A` in the
model of five statements returns 0 with the five statements, with fuel 6 and
with any fuel above 5. -/
theorem tree_terminates_witness :
    tree ⟨false⟩ (.exact model_two_paths) 6 node_A [] (-1) =
      some (0, [⟨node_A, node_P, node_B⟩, ⟨node_B, node_P, node_C⟩, ⟨node_C, node_P, node_D⟩,
        ⟨node_D, node_P, node_E⟩, ⟨node_A, node_P, node_C⟩]) ∧
    ∃ r, tree ⟨false⟩ (.exact model_two_paths) 100 node_A [] (-1) = some r :=
  ⟨by decide,
    (tree_terminates ⟨false⟩ model_two_paths node_A [] (-1)).1 100 (by decide)⟩

end Librdf
